import Mathlib

/-!
# Work-verification relay: shallow embedding and verified properties

The development embeds the two source files of the repository:

* `server.js` : the upload naming callback (`storage.filename`), the
  `POST /api/verify` handler as a pure function over an explicit file
  system, an explicit request record (what the handler sees in `req.files`
  and `req.body`) and an explicit completion service (a function standing
  for `openai.chat.completions.create`), and the route as a whole: the
  upload middleware `upload.fields(...)` followed by the handler, or by the
  default error handler of the framework when the middleware refuses the
  submission.
* `client/src/App.js` : `handleSubmit` over the component state, and the
  rendering of the analysis text as paragraphs.

JavaScript strings are embedded as `String`, file contents as lists of bytes
(`Nat`, read modulo 256), thrown exceptions as `Except String _` carrying the
`message` of the error.
-/

set_option autoImplicit false

namespace ImageVerif

/-! ## JSON bodies and HTTP responses -/

/-- JSON values that occur in the bodies sent by the relay. -/
inductive JsonValue where
  | null
  | bool (b : Bool)
  | str (s : String)
  deriving DecidableEq, Repr

/-- A JSON object, as the ordered list of its key/value pairs. -/
abbrev JsonObject := List (String × JsonValue)

/-- The response sent by `res.status(code).json(body)`. -/
structure HttpResponse where
  status : Nat
  body : JsonObject
  deriving DecidableEq, Repr

/-- The body `{ success: false, error: msg }`. -/
def failureBody (msg : String) : JsonObject :=
  [("success", JsonValue.bool false), ("error", JsonValue.str msg)]

/-- The body `{ success: true, analysis: content }`; a `null` content stays `null`. -/
def successBody (content : Option String) : JsonObject :=
  [("success", JsonValue.bool true),
   ("analysis", match content with
                | some t => JsonValue.str t
                | none => JsonValue.null)]

/-- Field lookup in a JSON object. -/
def JsonObject.field (o : JsonObject) (k : String) : Option JsonValue :=
  List.lookup k o

/-! ## Transient storage -/

/-- File contents: a list of bytes (each entry is read modulo 256). -/
abbrev Bytes := List Nat

/-- The file system: an association list from paths to contents. -/
abbrev FileSystem := List (String × Bytes)

/-- Model of `fs.existsSync`. -/
def existsSync (fs : FileSystem) (p : String) : Bool :=
  (List.lookup p fs).isSome

/-- Writing a file replaces whatever was stored under that path. This is the outcome
of writes that follow one another; when two parts of one request are streamed to the
same path at the same time, which bytes the path holds afterwards depends on how the
two writes interleave, and this model keeps the bytes of the later part. -/
def writeFile (fs : FileSystem) (p : String) (data : Bytes) : FileSystem :=
  (p, data) :: fs.filter (fun e => e.1 != p)

/-- The base64 alphabet of RFC 4648. -/
def base64Alphabet : List Char :=
  "ABCDEFGHIJKLMNOPQRSTUVWXYZabcdefghijklmnopqrstuvwxyz0123456789+/".data

/-- The base64 character of a 6-bit value. -/
def base64Char (n : Nat) : Char :=
  base64Alphabet.getD (n % 64) 'A'

/-- Standard padded base64 encoding of a byte list, three bytes at a time. -/
def base64Chars : Bytes → List Char
  | [] => []
  | [a] =>
      let a := a % 256
      [base64Char (a / 4), base64Char (a % 4 * 16), '=', '=']
  | [a, b] =>
      let a := a % 256
      let b := b % 256
      [base64Char (a / 4), base64Char (a % 4 * 16 + b / 16), base64Char (b % 16 * 4), '=']
  | a :: b :: c :: rest =>
      let a := a % 256
      let b := b % 256
      let c := c % 256
      base64Char (a / 4) :: base64Char (a % 4 * 16 + b / 16) ::
        base64Char (b % 16 * 4 + c / 64) :: base64Char (c % 64) :: base64Chars rest

/-- The 6-bit value of a base64 character (64 for a character outside the alphabet). -/
def base64Index (c : Char) : Nat :=
  base64Alphabet.indexOf c

/-- Decoding of padded base64 text, four characters at a time; it reads back what
`base64Chars` writes. -/
def base64Decode : List Char → Bytes
  | c1 :: c2 :: c3 :: c4 :: rest =>
    if c3 = '=' then
      [base64Index c1 * 4 + base64Index c2 / 16]
    else if c4 = '=' then
      [base64Index c1 * 4 + base64Index c2 / 16,
       base64Index c2 % 16 * 16 + base64Index c3 / 4]
    else
      (base64Index c1 * 4 + base64Index c2 / 16) ::
        (base64Index c2 % 16 * 16 + base64Index c3 / 4) ::
        (base64Index c3 % 4 * 64 + base64Index c4) :: base64Decode rest
  | _ => []

/-- The base64 text of a byte list. -/
def base64 (data : Bytes) : String :=
  String.mk (base64Chars data)

/-- Model of `fs.readFileSync(p, { encoding: 'base64' })`: throws `ENOENT` when the
path does not exist. -/
def readFileSyncBase64 (fs : FileSystem) (p : String) : Except String String :=
  match List.lookup p fs with
  | some data => Except.ok (base64 data)
  | none => Except.error ("ENOENT: no such file or directory, open \x27" ++ p ++ "\x27")

/-- Model of `fs.unlinkSync(p)`: removes the path, throws `ENOENT` when it does not
exist. -/
def unlinkSync (fs : FileSystem) (p : String) : Except String FileSystem :=
  if existsSync fs p then
    Except.ok (fs.filter (fun e => e.1 != p))
  else
    Except.error ("ENOENT: no such file or directory, unlink \x27" ++ p ++ "\x27")

/-! ## Upload naming (`storage.filename`, server.js 41-43) -/

/-- The `filename` callback of the disk storage:
`${Date.now()}-${file.originalname}`, with `now` the value of `Date.now()`, the
milliseconds elapsed since the epoch, printed in decimal. -/
def storageFilename (now : Nat) (originalname : String) : String :=
  toString now ++ "-" ++ originalname

/-- The number written by a list of decimal digits, most significant first; it reads
back the time stamp printed at the head of a storage name. -/
def decimalValue (cs : List Char) : Nat :=
  cs.foldl (fun acc c => acc * 10 + (c.toNat - 48)) 0

/-- One file part of a multipart submission, as it reaches the upload middleware:
its field name, its original file name, its bytes and the millisecond at which the
`filename` callback runs for it. -/
structure Upload where
  fieldname : String
  originalname : String
  data : Bytes
  arrival : Nat
  deriving DecidableEq, Repr

/-- The storage name generated for an upload. -/
def Upload.generatedName (u : Upload) : String :=
  storageFilename u.arrival u.originalname

/-- The upload directory `path.join(__dirname, 'uploads')`, relative to the server. -/
def uploadDir : String := "uploads"

/-- The path under which the disk storage persists an upload:
`path.join(destination, filename)`. -/
def Upload.storagePath (u : Upload) : String :=
  uploadDir ++ "/" ++ u.generatedName

/-- The entry that the upload middleware puts in `req.files[fieldname]`. -/
structure UploadedFile where
  fieldname : String
  originalname : String
  path : String
  deriving DecidableEq, Repr

/-- Persisting one upload: the bytes are written under the storage path and the
file record handed to the handler carries that path. -/
def persistUpload (fs : FileSystem) (u : Upload) : FileSystem × UploadedFile :=
  (writeFile fs u.storagePath u.data,
   UploadedFile.mk u.fieldname u.originalname u.storagePath)

/-! ## The external completion service -/

/-- One block of the `content` list of a chat message. -/
inductive ContentBlock where
  | text (text : String)
  | image_url (url : String) (detail : String)
  deriving DecidableEq, Repr

/-- A chat message. -/
structure ChatMessage where
  role : String
  content : List ContentBlock
  deriving DecidableEq, Repr

/-- The argument of `openai.chat.completions.create`. -/
structure CompletionRequest where
  model : String
  messages : List ChatMessage
  max_tokens : Nat
  deriving DecidableEq, Repr

/-- One entry of `response.choices`; `content` is `message.content` (text or `null`). -/
structure Choice where
  content : Option String
  deriving DecidableEq, Repr

/-- The value the completion call resolves to. -/
structure CompletionResponse where
  choices : List Choice
  deriving DecidableEq, Repr

/-- The completion service: for each request either the response it resolves to, or
the `message` of the error it rejects with. -/
abbrev CompletionService := CompletionRequest → Except String CompletionResponse

/-- Text of the prompt before the interpolated instructions (server.js line 100). -/
def promptHead : String :=
  "I\x27m providing a \x27before\x27 and \x27after\x27 image for work verification. " ++
  "Please analyze these images based on the following specific instructions: "

/-- Text of the prompt after the interpolated instructions (server.js lines 100-102). -/
def promptTail : String :=
  "\n\nPlease describe what changes have been made between the images and verify if " ++
  "the requested work appears to be completed based on visible changes. Focus on the " ++
  "specific elements mentioned in the instructions above. Provide a detailed assessment " ++
  "of the changes and conclude whether the work seems to be completed or not. Write a " ++
  "detailed report in bullet points about the relevant changes you notice."

/-- The prompt template with the instructions substituted in. -/
def promptText (verificationInstructions : String) : String :=
  promptHead ++ verificationInstructions ++ promptTail

/-- The inline data URL of an image given its base64 text. -/
def dataUrl (imageBase64 : String) : String :=
  "data:image/jpeg;base64," ++ imageBase64

/-- The completion request built by the handler (server.js 94-121). -/
def completionRequest (verificationInstructions beforeImageBase64 afterImageBase64 : String) :
    CompletionRequest :=
  CompletionRequest.mk "gpt-4o-2024-08-06"
    [ChatMessage.mk "user"
      [ContentBlock.text (promptText verificationInstructions),
       ContentBlock.image_url (dataUrl beforeImageBase64) "high",
       ContentBlock.image_url (dataUrl afterImageBase64) "high"]]
    1000

/-! ## Text fields of the body -/

/-- The value of `req.body.verificationInstructions`: the text of the field when it
was sent once, the array of its texts when the field name was sent several times. -/
inductive FieldValue where
  | text (value : String)
  | array (items : List String)
  deriving DecidableEq, Repr

/-- JavaScript truthiness: the empty text is falsy, every other text and every array
(also an empty one, also one of empty texts) is truthy. -/
def FieldValue.isTruthy : FieldValue → Bool
  | FieldValue.text value => value != ""
  | FieldValue.array _ => true

/-- The text that a template literal substitutes for the value: the text itself, or
for an array its items joined with commas. -/
def FieldValue.templateText : FieldValue → String
  | FieldValue.text value => value
  | FieldValue.array items => ",".intercalate items

/-- How the body parser of the upload middleware adds one more value received under
a field name: the first value is stored as text, a second value turns the entry into
the array of both, further values are pushed onto the array. -/
def appendField (current : Option FieldValue) (value : String) : Option FieldValue :=
  match current with
  | none => some (FieldValue.text value)
  | some (FieldValue.text first) => some (FieldValue.array [first, value])
  | some (FieldValue.array items) => some (FieldValue.array (items ++ [value]))

/-- The body entry built from the values received under one field name, in order. -/
def bodyValue (values : List String) : Option FieldValue :=
  values.foldl appendField none

/-! ## The handler of `POST /api/verify` (server.js 59-138) -/

/-- The object `req.files`: for each of the two named fields, the array of files
received for it, absent when no part of that name was received. -/
structure UploadedFiles where
  beforeImage : Option (List UploadedFile)
  afterImage : Option (List UploadedFile)
  deriving DecidableEq, Repr

/-- The request as the handler sees it: `req.files` (absent when the body was not
multipart) and `req.body.verificationInstructions` (absent when no such field). -/
structure VerifyRequest where
  files : Option UploadedFiles
  verificationInstructions : Option FieldValue
  deriving DecidableEq, Repr

/-- The `beforeImage` part of a submission, if any. -/
def VerifyRequest.beforePart (req : VerifyRequest) : Option (List UploadedFile) :=
  req.files.bind (fun f => f.beforeImage)

/-- The `afterImage` part of a submission, if any. -/
def VerifyRequest.afterPart (req : VerifyRequest) : Option (List UploadedFile) :=
  req.files.bind (fun f => f.afterImage)

/-- What one run of the handler leaves behind: the response sent, the completion
calls made (in order), and the file system at the time the response is sent. -/
structure HandlerResult where
  response : HttpResponse
  calls : List CompletionRequest
  fs : FileSystem
  deriving DecidableEq, Repr

/-- Error text of the first validation (server.js line 70). -/
def missingFilesError : String :=
  "Missing required files (beforeImage and/or afterImage)"

/-- Error text of the second validation (server.js line 79). -/
def missingInstructionsError : String :=
  "Missing verification instructions"

/-- Message of the `TypeError` raised by reading property `prop` of `undefined`. -/
def undefinedPropertyError (prop : String) : String :=
  "Cannot read properties of undefined (reading \x27" ++ prop ++ "\x27)"

/-- The `catch` block (server.js 131-137): status 500 with the error message. -/
def caught (message : String) (calls : List CompletionRequest) (fs : FileSystem) :
    HandlerResult :=
  HandlerResult.mk (HttpResponse.mk 500 (failureBody message)) calls fs

/-- The handler of `POST /api/verify`, statement by statement. -/
def verifyHandler (svc : CompletionService) (fs : FileSystem) (req : VerifyRequest) :
    HandlerResult :=
  -- if (!req.files || !req.files['beforeImage'] || !req.files['afterImage'])
  match req.files with
  | some (UploadedFiles.mk (some beforeFiles) (some afterFiles)) =>
    -- if (!req.body.verificationInstructions)
    match req.verificationInstructions with
    | none => HandlerResult.mk (HttpResponse.mk 400 (failureBody missingInstructionsError)) [] fs
    | some verificationInstructions =>
      if verificationInstructions.isTruthy = false then
        HandlerResult.mk (HttpResponse.mk 400 (failureBody missingInstructionsError)) [] fs
      else
        -- req.files['beforeImage'][0].path
        match beforeFiles.head? with
        | none => caught (undefinedPropertyError "path") [] fs
        | some beforeFile =>
        -- req.files['afterImage'][0].path
        match afterFiles.head? with
        | none => caught (undefinedPropertyError "path") [] fs
        | some afterFile =>
        match readFileSyncBase64 fs beforeFile.path with
        | Except.error e => caught e [] fs
        | Except.ok beforeImageBase64 =>
        match readFileSyncBase64 fs afterFile.path with
        | Except.error e => caught e [] fs
        | Except.ok afterImageBase64 =>
        let call := completionRequest verificationInstructions.templateText
          beforeImageBase64 afterImageBase64
        match svc call with
        | Except.error e => caught e [call] fs
        | Except.ok response =>
        -- fs.unlinkSync(beforeImagePath); fs.unlinkSync(afterImagePath)
        match unlinkSync fs beforeFile.path with
        | Except.error e => caught e [call] fs
        | Except.ok fs1 =>
        match unlinkSync fs1 afterFile.path with
        | Except.error e => caught e [call] fs1
        | Except.ok fs2 =>
        -- response.choices[0].message.content
        match response.choices.head? with
        | none => caught (undefinedPropertyError "message") [call] fs2
        | some choice =>
          HandlerResult.mk (HttpResponse.mk 200 (successBody choice.content)) [call] fs2
  | _ => HandlerResult.mk (HttpResponse.mk 400 (failureBody missingFilesError)) [] fs

/-! ## The route: upload middleware, then the handler (server.js 46, 59) -/

/-- A multipart submission to `POST /api/verify`: its file parts in order of arrival
and the values of the text parts named `verificationInstructions`, in order of
arrival. Text parts under other names are not read by the handler and are left out;
names written in the bracket syntax of the body parser are outside this model. -/
structure Submission where
  files : List Upload
  instructions : List String
  deriving DecidableEq, Repr

/-- A submission carries a file for a field when one of its file parts has that field
name and a non-empty file name (a part with an empty file name, which a form sends
for an empty file input, is dropped by the middleware). -/
def Submission.hasFile (s : Submission) (field : String) : Bool :=
  s.files.any (fun u => u.fieldname == field && u.originalname != "")

/-- The state of the upload middleware while it walks through the file parts:
transient storage, the two arrays of `req.files`, the number of files each field may
still take (`maxCount: 1` each), the paths stored so far, and whether a part was
refused. -/
structure Received where
  fs : FileSystem
  beforeImage : Option (List UploadedFile)
  afterImage : Option (List UploadedFile)
  beforeLeft : Nat
  afterLeft : Nat
  uploaded : List String
  refused : Bool
  deriving DecidableEq, Repr

/-- One file part through `upload.fields([beforeImage: 1, afterImage: 1])`: nothing
more is read once a part was refused; a part without file name is dropped; a part
under another field name, or under a field that has taken its file, is refused
(`LIMIT_UNEXPECTED_FILE`); any other part is persisted by the disk storage and
pushed onto the array of its field. -/
def acceptPart (st : Received) (u : Upload) : Received :=
  if st.refused then st
  else if u.originalname = "" then st
  else if u.fieldname = "beforeImage" then
    if st.beforeLeft = 0 then
      Received.mk st.fs st.beforeImage st.afterImage st.beforeLeft st.afterLeft st.uploaded true
    else
      Received.mk (persistUpload st.fs u).1
        (some (st.beforeImage.getD [] ++ [(persistUpload st.fs u).2])) st.afterImage
        (st.beforeLeft - 1) st.afterLeft (st.uploaded ++ [u.storagePath]) false
  else if u.fieldname = "afterImage" then
    if st.afterLeft = 0 then
      Received.mk st.fs st.beforeImage st.afterImage st.beforeLeft st.afterLeft st.uploaded true
    else
      Received.mk (persistUpload st.fs u).1 st.beforeImage
        (some (st.afterImage.getD [] ++ [(persistUpload st.fs u).2]))
        st.beforeLeft (st.afterLeft - 1) (st.uploaded ++ [u.storagePath]) false
  else
    Received.mk st.fs st.beforeImage st.afterImage st.beforeLeft st.afterLeft st.uploaded true

/-- Model of the upload middleware `upload.fields(...)` over the disk storage above,
on the file parts of a multipart submission. -/
def uploadFields (fs : FileSystem) (s : Submission) : Received :=
  s.files.foldl acceptPart (Received.mk fs none none 1 1 [] false)

/-- Transient storage and the request object once the middleware has read the
submission: what the handler receives when no part was refused. -/
def receiveSubmission (fs : FileSystem) (s : Submission) : FileSystem × VerifyRequest :=
  ((uploadFields fs s).fs,
   VerifyRequest.mk
     (some (UploadedFiles.mk (uploadFields fs s).beforeImage (uploadFields fs s).afterImage))
     (bodyValue s.instructions))

/-- Every file listed in `req.files` exists in transient storage, and no array of
`req.files` is empty. -/
def Received.filesStored (st : Received) : Prop :=
  (∀ l, st.beforeImage = some l → l ≠ [] ∧ ∀ f ∈ l, existsSync st.fs f.path = true) ∧
  (∀ l, st.afterImage = some l → l ≠ [] ∧ ∀ f ∈ l, existsSync st.fs f.path = true)

/-- What the middleware does before it reports a refusal: the files it stored for the
request are removed again. -/
def removeUploadedFiles (fs : FileSystem) (paths : List String) : FileSystem :=
  paths.foldl (fun acc p => acc.filter (fun e => e.1 != p)) fs

/-- The response of the route: the JSON response sent by the handler, or the error
page (HTML, not JSON) sent by the default error handler of the framework. -/
inductive RouteResponse where
  | handled (response : HttpResponse)
  | errorPage (status : Nat)
  deriving DecidableEq, Repr

/-- What one request to the route leaves behind. -/
structure RouteResult where
  response : RouteResponse
  calls : List CompletionRequest
  fs : FileSystem
  deriving DecidableEq, Repr

/-- The route `POST /api/verify`: the upload middleware runs first; when it refuses
the submission the error goes to the default error handler (no error middleware is
registered), which answers 500 with an error page, and the handler never runs;
otherwise the handler runs on what the middleware received. -/
def route (svc : CompletionService) (fs : FileSystem) (s : Submission) : RouteResult :=
  if (uploadFields fs s).refused then
    RouteResult.mk (RouteResponse.errorPage 500) []
      (removeUploadedFiles (uploadFields fs s).fs (uploadFields fs s).uploaded)
  else
    RouteResult.mk
      (RouteResponse.handled
        (verifyHandler svc (receiveSubmission fs s).1 (receiveSubmission fs s).2).response)
      (verifyHandler svc (receiveSubmission fs s).1 (receiveSubmission fs s).2).calls
      (verifyHandler svc (receiveSubmission fs s).1 (receiveSubmission fs s).2).fs

/-! ## JavaScript string operations used by the client -/

/-- The code points removed by `String.prototype.trim`: ECMAScript white space and
line terminators. -/
def isJsWhiteSpace (c : Char) : Bool :=
  let n := c.toNat
  n = 0x09 || n = 0x0A || n = 0x0B || n = 0x0C || n = 0x0D || n = 0x20 || n = 0xA0 ||
  n = 0x1680 || (0x2000 ≤ n && n ≤ 0x200A) || n = 0x2028 || n = 0x2029 || n = 0x202F ||
  n = 0x205F || n = 0x3000 || n = 0xFEFF

/-- Model of `s.trim()`: white space is dropped from both ends. -/
def jsTrim (s : String) : String :=
  String.mk ((s.data.dropWhile isJsWhiteSpace).reverse.dropWhile isJsWhiteSpace).reverse

/-- A text made of white space only (the empty text included). -/
def isBlank (s : String) : Bool :=
  s.data.all isJsWhiteSpace

/-- Pieces of a character list between newline characters: `split('\n')` on the
characters of a text. A text without newline gives one piece, the text itself. -/
def splitNewlineChars : List Char → List (List Char)
  | [] => [[]]
  | c :: cs =>
    if c = '\n' then
      [] :: splitNewlineChars cs
    else
      match splitNewlineChars cs with
      | [] => [[c]]
      | piece :: pieces => (c :: piece) :: pieces

/-- Model of `text.split('\n')`. -/
def jsSplitNewline (text : String) : List String :=
  (splitNewlineChars text.data).map String.mk

/-- The characters of a list of pieces, each piece preceded by a newline: what
`join('\n')` appends after the first piece. -/
def joinTail : List (List Char) → List Char
  | [] => []
  | p :: ps => '\n' :: (p ++ joinTail ps)

/-! ## The client component (client/src/App.js) -/

/-- A file picked in one of the two file inputs. -/
structure SelectedFile where
  name : String
  data : Bytes
  deriving DecidableEq, Repr

/-- The component state that `handleSubmit` and the analysis view read or write. -/
structure FormState where
  beforeImage : Option SelectedFile
  afterImage : Option SelectedFile
  verificationInstructions : String
  loading : Bool
  result : Option String
  error : Option String
  deriving DecidableEq, Repr

/-- The multipart body built by `handleSubmit` (App.js 74-77). -/
structure FormData where
  beforeImage : SelectedFile
  afterImage : SelectedFile
  verificationInstructions : String
  deriving DecidableEq, Repr

/-- What `handleSubmit` reads from a rejected request: `err.response?.data?.error`
(absent when there is no response or no such field) and `err.message`. -/
structure RequestError where
  responseError : Option String
  message : String
  deriving DecidableEq, Repr

/-- The transport: for each request sent to `/api/verify`, either
`response.data.analysis` of the resolved response or the error of the rejection. -/
abbrev Transport := FormData → Except RequestError (Option String)

/-- The text `err.response?.data?.error || err.message`. -/
def RequestError.text (e : RequestError) : String :=
  match e.responseError with
  | some t => if t = "" then e.message else t
  | none => e.message

/-- Model of `handleSubmit` (App.js 58-99): the state once the handler has finished
and the requests it sent. -/
def handleSubmit (post : Transport) (s : FormState) : FormState × List FormData :=
  match s.beforeImage, s.afterImage with
  | some beforeImage, some afterImage =>
    -- if (!verificationInstructions.trim())
    if jsTrim s.verificationInstructions = "" then
      (FormState.mk s.beforeImage s.afterImage s.verificationInstructions s.loading s.result
        (some "Please enter verification instructions"), [])
    else
      let formData := FormData.mk beforeImage afterImage s.verificationInstructions
      -- setLoading(true); setError(null); setResult(null); ... finally setLoading(false)
      match post formData with
      | Except.ok analysis =>
        (FormState.mk s.beforeImage s.afterImage s.verificationInstructions false analysis
          none, [formData])
      | Except.error err =>
        (FormState.mk s.beforeImage s.afterImage s.verificationInstructions false none
          (some ("Error analyzing images: " ++ err.text)), [formData])
  -- if (!beforeImage || !afterImage)
  | _, _ =>
    (FormState.mk s.beforeImage s.afterImage s.verificationInstructions s.loading s.result
      (some "Please upload both before and after images"), [])

/-- What the component shows below the heading: the form, or the result card with
the paragraphs of the analysis. -/
inductive View where
  | form
  | analysis (paragraphs : List String)
  deriving DecidableEq, Repr

/-- Model of the conditional rendering (App.js 128, 220, 235-239): the form while
`result` is falsy (`null` or the empty text), else one paragraph for each piece of
`result.split('\n')`. -/
def render (s : FormState) : View :=
  match s.result with
  | none => View.form
  | some text => if text = "" then View.form else View.analysis (jsSplitNewline text)

/-- The paragraphs of the analysis shown by a view (none while the form is shown). -/
def View.paragraphs : View → List String
  | View.form => []
  | View.analysis ps => ps

/-! ## Sample data -/

/-- A `beforeImage` part. -/
def wallBefore : Upload :=
  Upload.mk "beforeImage" "wall_before.jpg" [255, 216, 255, 224] 1700000000000

/-- An `afterImage` part with another file name, received in the same millisecond. -/
def wallAfter : Upload :=
  Upload.mk "afterImage" "wall_after.jpg" [255, 216, 255, 225] 1700000000000

/-- An `afterImage` part named like `photoBefore`, received in the same millisecond. -/
def photoAfter : Upload :=
  Upload.mk "afterImage" "photo.jpg" [255, 216, 255, 225] 1700000000000

/-- A `beforeImage` part named `photo.jpg`. -/
def photoBefore : Upload :=
  Upload.mk "beforeImage" "photo.jpg" [255, 216, 255, 224] 1700000000000

/-- The analysis text of the end-to-end scenario. -/
def wallAnalysis : String :=
  "- Wall color changed from white to blue.\n- Work appears complete."

/-- A completion service that resolves every call with `wallAnalysis`. -/
def answeringService : CompletionService :=
  fun _ => Except.ok (CompletionResponse.mk [Choice.mk (some wallAnalysis)])

/-- A completion service that rejects every call with the given message. -/
def failingService (message : String) : CompletionService :=
  fun _ => Except.error message

/-- The instructions of the end-to-end scenario. -/
def wallInstructions : String := "Verify the wall has been repainted"

/-- A form filled with two images and the instructions of the scenario. -/
def filledForm : FormState :=
  FormState.mk (some (SelectedFile.mk "wall_before.jpg" [255, 216, 255, 224]))
    (some (SelectedFile.mk "wall_after.jpg" [255, 216, 255, 225]))
    wallInstructions false none none

/-- The scenario submission: two images with different names and the instructions. -/
def wallForm : Submission :=
  Submission.mk [wallBefore, wallAfter] [wallInstructions]

/-- A submission whose two images carry the same file name `photo.jpg`. -/
def photoForm : Submission :=
  Submission.mk [photoBefore, photoAfter] [wallInstructions]

/-- A submission whose instructions are a space, a tab and a newline. -/
def blankForm : Submission :=
  Submission.mk [wallBefore, wallAfter] [" \t\n"]

/-- A submission whose instructions field is sent twice, empty both times. -/
def repeatedEmptyForm : Submission :=
  Submission.mk [wallBefore, wallAfter] ["", ""]

/-- A submission without the `afterImage` part. -/
def noAfterForm : Submission :=
  Submission.mk [wallBefore] [wallInstructions]

/-- A submission without the `verificationInstructions` field. -/
def noInstructionsForm : Submission :=
  Submission.mk [wallBefore, wallAfter] []

/-- A submission whose after image is sent under the field name `after`: the
`afterImage` part is absent. -/
def misnamedForm : Submission :=
  Submission.mk
    [wallBefore, Upload.mk "after" "wall_after.jpg" [255, 216, 255, 225] 1700000000000]
    [wallInstructions]

/-- A submission with two `beforeImage` parts, no `afterImage` part and no
instructions. -/
def twoBeforeForm : Submission :=
  Submission.mk
    [wallBefore, Upload.mk "beforeImage" "wall_after.jpg" [255, 216, 255, 225] 1700000000000]
    []

/-- The scenario submission as the handler receives it on an empty upload directory. -/
def wallSubmission : FileSystem × VerifyRequest :=
  receiveSubmission [] wallForm

/-- The `photo.jpg` submission as the handler receives it. -/
def photoSubmission : FileSystem × VerifyRequest :=
  receiveSubmission [] photoForm

/-- The white-space submission as the handler receives it. -/
def blankSubmission : FileSystem × VerifyRequest :=
  receiveSubmission [] blankForm

/-- The filled form with the after image removed. -/
def formWithoutAfter : FormState :=
  FormState.mk (some (SelectedFile.mk "wall_before.jpg" [255, 216, 255, 224])) none
    wallInstructions false none none

/-- The filled form with the instructions replaced by white space. -/
def formWithBlankInstructions : FormState :=
  FormState.mk (some (SelectedFile.mk "wall_before.jpg" [255, 216, 255, 224]))
    (some (SelectedFile.mk "wall_after.jpg" [255, 216, 255, 225])) " \t\n" false none none

/-- A transport whose response carries the analysis text of the scenario. -/
def scenarioTransport : Transport :=
  fun _ => Except.ok (some wallAnalysis)

/-- A transport whose response carries the empty text as analysis. -/
def emptyAnalysisTransport : Transport :=
  fun _ => Except.ok (some "")

/-! ## Transient storage: lemmas -/

/-- Filtering never makes an absent path appear. -/
theorem lookup_filter_none (fs : FileSystem) (q : String) (f : String × Bytes → Bool)
    (h : List.lookup q fs = none) : List.lookup q (fs.filter f) = none := by
  induction fs with
  | nil => rfl
  | cons e rest ih =>
    obtain ⟨k, v⟩ := e
    rw [List.lookup_cons] at h
    cases hk : (q == k) with
    | true => rw [hk] at h; cases h
    | false =>
      rw [hk] at h
      cases hf : f (k, v) with
      | true =>
        rw [List.filter_cons_of_pos hf, List.lookup_cons, hk]
        exact ih h
      | false =>
        rw [List.filter_cons_of_neg (by rw [hf]; exact Bool.false_ne_true)]
        exact ih h

/-- A path is absent once its entries are filtered out. -/
theorem lookup_filter_ne_self (fs : FileSystem) (p : String) :
    List.lookup p (fs.filter (fun e => e.1 != p)) = none := by
  induction fs with
  | nil => rfl
  | cons e rest ih =>
    obtain ⟨k, v⟩ := e
    by_cases h : k = p
    · rw [List.filter_cons_of_neg (by simp [h])]
      exact ih
    · rw [List.filter_cons_of_pos (by simp [h]), List.lookup_cons]
      have h2 : (p == k) = false := beq_eq_false_iff_ne.mpr (fun hh => h hh.symm)
      rw [h2]
      exact ih

/-- Filtering out one path leaves the lookup of every other path as it was. -/
theorem lookup_filter_ne_other (fs : FileSystem) (p q : String) (h : q ≠ p) :
    List.lookup q (fs.filter (fun e => e.1 != p)) = List.lookup q fs := by
  induction fs with
  | nil => rfl
  | cons e rest ih =>
    obtain ⟨k, v⟩ := e
    by_cases hk : k = p
    · rw [List.filter_cons_of_neg (by simp [hk]), List.lookup_cons]
      have hq : (q == k) = false := beq_eq_false_iff_ne.mpr (fun hh => h (hh.trans hk))
      rw [hq]
      exact ih
    · rw [List.filter_cons_of_pos (by simp [hk]), List.lookup_cons, List.lookup_cons, ih]

/-- Unlinking a path that exists succeeds. -/
theorem unlinkSync_of_exists (fs : FileSystem) (p : String) (h : existsSync fs p = true) :
    unlinkSync fs p = Except.ok (fs.filter (fun e => e.1 != p)) := by
  unfold unlinkSync
  rw [if_pos h]

/-- A path does not exist exactly when its lookup fails. -/
theorem existsSync_false_iff (fs : FileSystem) (p : String) :
    existsSync fs p = false ↔ List.lookup p fs = none := by
  unfold existsSync
  cases List.lookup p fs <;> simp

/-- After a successful unlink the path does not exist. -/
theorem unlinkSync_removes (fs fs1 : FileSystem) (p : String)
    (h : unlinkSync fs p = Except.ok fs1) : existsSync fs1 p = false := by
  unfold unlinkSync at h
  split at h
  · cases h
    exact (existsSync_false_iff _ _).mpr (lookup_filter_ne_self fs p)
  · cases h

/-- A successful unlink leaves absent paths absent. -/
theorem unlinkSync_keeps_absent (fs fs1 : FileSystem) (p q : String)
    (h : unlinkSync fs p = Except.ok fs1) (hq : existsSync fs q = false) :
    existsSync fs1 q = false := by
  unfold unlinkSync at h
  split at h
  · cases h
    exact (existsSync_false_iff _ _).mpr
      (lookup_filter_none fs q _ ((existsSync_false_iff _ _).mp hq))
  · cases h

/-- Unlinking a path a second time throws `ENOENT`. -/
theorem unlinkSync_twice (fs fs1 : FileSystem) (p : String)
    (h : unlinkSync fs p = Except.ok fs1) :
    unlinkSync fs1 p =
      Except.error ("ENOENT: no such file or directory, unlink \x27" ++ p ++ "\x27") := by
  have h1 := unlinkSync_removes fs fs1 p h
  unfold unlinkSync
  rw [h1]
  rfl

/-- A file that was read exists. -/
theorem readFile_ok_exists (fs : FileSystem) (p t : String)
    (h : readFileSyncBase64 fs p = Except.ok t) : existsSync fs p = true := by
  unfold readFileSyncBase64 at h
  unfold existsSync
  cases hl : List.lookup p fs with
  | none => rw [hl] at h; cases h
  | some d => rfl


/-- With both file arrays non-empty and a truthy instructions value the handler runs
its processing steps. -/
theorem verifyHandler_validated (svc : CompletionService) (fs : FileSystem)
    (req : VerifyRequest) (fb fa : UploadedFile) (rb ra : List UploadedFile)
    (value : FieldValue)
    (hf : req.files = some (UploadedFiles.mk (some (fb :: rb)) (some (fa :: ra))))
    (hi : req.verificationInstructions = some value) (hne : value.isTruthy = true) :
    verifyHandler svc fs req =
      match readFileSyncBase64 fs fb.path with
      | Except.error e => caught e [] fs
      | Except.ok beforeImageBase64 =>
      match readFileSyncBase64 fs fa.path with
      | Except.error e => caught e [] fs
      | Except.ok afterImageBase64 =>
      match svc (completionRequest value.templateText beforeImageBase64 afterImageBase64) with
      | Except.error e =>
        caught e [completionRequest value.templateText beforeImageBase64 afterImageBase64] fs
      | Except.ok response =>
      match unlinkSync fs fb.path with
      | Except.error e =>
        caught e [completionRequest value.templateText beforeImageBase64 afterImageBase64] fs
      | Except.ok fs1 =>
      match unlinkSync fs1 fa.path with
      | Except.error e =>
        caught e [completionRequest value.templateText beforeImageBase64 afterImageBase64] fs1
      | Except.ok fs2 =>
      match response.choices.head? with
      | none =>
        caught (undefinedPropertyError "message")
          [completionRequest value.templateText beforeImageBase64 afterImageBase64] fs2
      | some choice =>
        HandlerResult.mk (HttpResponse.mk 200 (successBody choice.content))
          [completionRequest value.templateText beforeImageBase64 afterImageBase64] fs2 := by
  obtain ⟨files, vi⟩ := req
  simp only at hf hi
  subst hf hi
  simp only [verifyHandler, hne, Bool.true_eq_false, if_false, List.head?_cons]

/-- Every run of the handler ends in one of five ways: a validation rejection, an
exception before the call, a failed call, an exception after a successful call, or
the success response. -/
theorem verifyHandler_outcome (svc : CompletionService) (fs : FileSystem)
    (req : VerifyRequest) :
    ((verifyHandler svc fs req).response.status = 400 ∧
      (verifyHandler svc fs req).calls = [] ∧ (verifyHandler svc fs req).fs = fs) ∨
    ((verifyHandler svc fs req).response.status = 500 ∧
      (verifyHandler svc fs req).calls = [] ∧ (verifyHandler svc fs req).fs = fs) ∨
    (∃ c m, (verifyHandler svc fs req).calls = [c] ∧ svc c = Except.error m ∧
      (verifyHandler svc fs req).response = HttpResponse.mk 500 (failureBody m) ∧
      (verifyHandler svc fs req).fs = fs) ∨
    (∃ c r, (verifyHandler svc fs req).calls = [c] ∧ svc c = Except.ok r ∧
      (verifyHandler svc fs req).response.status = 500) ∨
    (∃ c r ch rest fb rb fa ra, (verifyHandler svc fs req).calls = [c] ∧
      svc c = Except.ok r ∧ r.choices = ch :: rest ∧
      req.files = some (UploadedFiles.mk (some (fb :: rb)) (some (fa :: ra))) ∧
      (verifyHandler svc fs req).response = HttpResponse.mk 200 (successBody ch.content) ∧
      existsSync (verifyHandler svc fs req).fs fb.path = false ∧
      existsSync (verifyHandler svc fs req).fs fa.path = false) := by
  obtain ⟨files, vi⟩ := req
  rcases files with _ | ⟨_ | bl, _ | al⟩
  · left; simp [verifyHandler]
  · left; simp [verifyHandler]
  · left; simp [verifyHandler]
  · left; simp [verifyHandler]
  · rcases vi with _ | instr
    · left; simp [verifyHandler]
    · cases hne : instr.isTruthy with
      | false => left; simp [verifyHandler, hne]
      | true =>
        rcases bl with _ | ⟨fb, rb⟩
        · right; left; simp [verifyHandler, hne, caught]
        · rcases al with _ | ⟨fa, ra⟩
          · right; left; simp [verifyHandler, hne, caught]
          · rw [verifyHandler_validated svc fs _ fb fa rb ra instr rfl rfl hne]
            cases hb : readFileSyncBase64 fs fb.path with
            | error e => right; left; simp [caught]
            | ok bb =>
              dsimp only
              cases ha : readFileSyncBase64 fs fa.path with
              | error e => right; left; simp [caught]
              | ok ab =>
                dsimp only
                cases hs : svc (completionRequest instr.templateText bb ab) with
                | error m =>
                  right; right; left
                  exact ⟨_, m, rfl, hs, rfl, rfl⟩
                | ok r =>
                  right; right; right
                  dsimp only
                  cases hu1 : unlinkSync fs fb.path with
                  | error e => left; exact ⟨_, r, rfl, hs, rfl⟩
                  | ok fs1 =>
                    dsimp only
                    cases hu2 : unlinkSync fs1 fa.path with
                    | error e => left; exact ⟨_, r, rfl, hs, rfl⟩
                    | ok fs2 =>
                      dsimp only
                      rcases hc : r.choices with _ | ⟨ch, rest⟩
                      · left; exact ⟨_, r, rfl, hs, rfl⟩
                      · right
                        exact ⟨_, r, ch, rest, fb, rb, fa, ra, rfl, hs, hc, rfl, rfl,
                          unlinkSync_keeps_absent fs1 fs2 fa.path fb.path hu2
                            (unlinkSync_removes fs fs1 fb.path hu1),
                          unlinkSync_removes fs1 fs2 fa.path hu2⟩

/-! ## Server: the two guards of the handler -/

/-- The first guard: with a file array absent the handler answers 400 with the files
message, calls nothing and deletes nothing. -/
theorem verifyHandler_missing_file (svc : CompletionService) (fs : FileSystem)
    (req : VerifyRequest) (h : req.beforePart = none ∨ req.afterPart = none) :
    verifyHandler svc fs req =
      HandlerResult.mk (HttpResponse.mk 400 (failureBody missingFilesError)) [] fs := by
  obtain ⟨files, vi⟩ := req
  rcases files with _ | ⟨_ | bl, _ | al⟩
  · rfl
  · rfl
  · rfl
  · rfl
  · rcases h with h | h <;> simp [VerifyRequest.beforePart, VerifyRequest.afterPart] at h

/-- The second guard: with both file arrays present and the instructions absent or
falsy the handler answers 400 with the instructions message and calls nothing. -/
theorem verifyHandler_missing_instructions (svc : CompletionService) (fs : FileSystem)
    (req : VerifyRequest) (bl al : List UploadedFile)
    (hf : req.files = some (UploadedFiles.mk (some bl) (some al)))
    (h : req.verificationInstructions = none ∨
      ∃ v, req.verificationInstructions = some v ∧ v.isTruthy = false) :
    verifyHandler svc fs req =
      HandlerResult.mk (HttpResponse.mk 400 (failureBody missingInstructionsError)) [] fs := by
  obtain ⟨files, vi⟩ := req
  simp only at hf h
  subst hf
  rcases h with h | ⟨v, h, hv⟩
  · subst h
    rfl
  · subst h
    simp only [verifyHandler, hv, if_true]

/-- With both file arrays non-empty, a truthy instructions value and both files in
storage, the handler makes exactly one completion call, built from the instructions
text and the base64 text of the two stored files. -/
theorem verifyHandler_single_call (svc : CompletionService) (fs : FileSystem)
    (req : VerifyRequest) (fb fa : UploadedFile) (rb ra : List UploadedFile)
    (value : FieldValue) (beforeData afterData : Bytes)
    (hf : req.files = some (UploadedFiles.mk (some (fb :: rb)) (some (fa :: ra))))
    (hi : req.verificationInstructions = some value) (hne : value.isTruthy = true)
    (hb : List.lookup fb.path fs = some beforeData)
    (ha : List.lookup fa.path fs = some afterData) :
    (verifyHandler svc fs req).calls =
      [completionRequest value.templateText (base64 beforeData) (base64 afterData)] := by
  have hb1 : readFileSyncBase64 fs fb.path = Except.ok (base64 beforeData) := by
    unfold readFileSyncBase64
    rw [hb]
  have ha1 : readFileSyncBase64 fs fa.path = Except.ok (base64 afterData) := by
    unfold readFileSyncBase64
    rw [ha]
  rw [verifyHandler_validated svc fs req fb fa rb ra value hf hi hne]
  simp only [hb1, ha1]
  cases svc (completionRequest value.templateText (base64 beforeData) (base64 afterData)) with
  | error e => rfl
  | ok r =>
    dsimp only
    cases unlinkSync fs fb.path with
    | error e => rfl
    | ok fs1 =>
      dsimp only
      cases unlinkSync fs1 fa.path with
      | error e => rfl
      | ok fs2 =>
        dsimp only
        cases r.choices.head? with
        | none => rfl
        | some ch => rfl

/-! ## Body values -/

/-- Once the entry is an array, further values are pushed onto it. -/
theorem foldl_appendField_array (rest items : List String) :
    rest.foldl appendField (some (FieldValue.array items)) =
      some (FieldValue.array (items ++ rest)) := by
  induction rest generalizing items with
  | nil => simp
  | cons v vs ih =>
    rw [List.foldl_cons]
    simp only [appendField]
    rw [ih]
    simp

/-- A field sent twice or more arrives as the array of its values. -/
theorem bodyValue_many (v1 v2 : String) (rest : List String) :
    bodyValue (v1 :: v2 :: rest) = some (FieldValue.array (v1 :: v2 :: rest)) := by
  unfold bodyValue
  rw [List.foldl_cons, List.foldl_cons]
  simp only [appendField]
  rw [foldl_appendField_array]
  rfl

/-- The body entry is absent or falsy exactly when the field was not sent or was sent
once with the empty value. -/
theorem bodyValue_falsy_iff (values : List String) :
    (bodyValue values = none ∨ ∃ v, bodyValue values = some v ∧ v.isTruthy = false) ↔
      (values = [] ∨ values = [""]) := by
  rcases values with _ | ⟨v1, _ | ⟨v2, rest⟩⟩
  · simp [bodyValue]
  · simp [bodyValue, appendField, FieldValue.isTruthy]
  · rw [bodyValue_many]
    simp [FieldValue.isTruthy]

/-! ## The upload middleware -/

/-- Writing a file makes its path exist. -/
theorem existsSync_writeFile_self (fs : FileSystem) (p : String) (data : Bytes) :
    existsSync (writeFile fs p data) p = true := by
  simp [existsSync, writeFile, List.lookup_cons]

/-- Writing a file keeps the paths that exist. -/
theorem existsSync_writeFile_of_exists (fs : FileSystem) (p q : String) (data : Bytes)
    (h : existsSync fs q = true) : existsSync (writeFile fs p data) q = true := by
  by_cases hq : q = p
  · rw [hq]
    exact existsSync_writeFile_self fs p data
  · unfold existsSync writeFile at *
    have h2 : (q == p) = false := beq_eq_false_iff_ne.mpr hq
    rw [List.lookup_cons, h2, lookup_filter_ne_other fs p q hq]
    exact h

/-- Once a part was refused the remaining parts change nothing. -/
theorem foldl_acceptPart_refused (l : List Upload) (st : Received)
    (h : st.refused = true) : l.foldl acceptPart st = st := by
  induction l with
  | nil => rfl
  | cons u us ih =>
    rw [List.foldl_cons]
    have : acceptPart st u = st := by
      unfold acceptPart
      rw [if_pos h]
    rw [this]
    exact ih

/-- The stored-files invariant is kept by every part. -/
theorem acceptPart_filesStored (st : Received) (u : Upload) (h : st.filesStored) :
    (acceptPart st u).filesStored := by
  obtain ⟨hb, ha⟩ := h
  have keep : ∀ (arr : Option (List UploadedFile)),
      (∀ l, arr = some l → l ≠ [] ∧ ∀ f ∈ l, existsSync st.fs f.path = true) →
      ∀ l, arr = some l → l ≠ [] ∧
        ∀ f ∈ l, existsSync (persistUpload st.fs u).1 f.path = true := by
    intro arr harr l hl
    refine ⟨(harr l hl).1, fun f hf => ?_⟩
    exact existsSync_writeFile_of_exists _ _ _ _ ((harr l hl).2 f hf)
  have push : ∀ (arr : Option (List UploadedFile)),
      (∀ l, arr = some l → l ≠ [] ∧ ∀ f ∈ l, existsSync st.fs f.path = true) →
      ∀ l, some (arr.getD [] ++ [(persistUpload st.fs u).2]) = some l → l ≠ [] ∧
        ∀ f ∈ l, existsSync (persistUpload st.fs u).1 f.path = true := by
    intro arr harr l hl
    cases hl
    refine ⟨by simp, fun f hf => ?_⟩
    rcases List.mem_append.mp hf with hf | hf
    · cases harr0 : arr with
      | none => rw [harr0] at hf; simp at hf
      | some l0 =>
        rw [harr0] at hf
        exact existsSync_writeFile_of_exists _ _ _ _ ((harr l0 harr0).2 f hf)
    · rw [List.mem_singleton.mp hf]
      exact existsSync_writeFile_self _ _ _
  unfold acceptPart
  split
  · exact ⟨hb, ha⟩
  · split
    · exact ⟨hb, ha⟩
    · split
      · split
        · exact ⟨hb, ha⟩
        · exact ⟨push _ hb, keep _ ha⟩
      · split
        · split
          · exact ⟨hb, ha⟩
          · exact ⟨keep _ hb, push _ ha⟩
        · exact ⟨hb, ha⟩

/-- The stored-files invariant holds when the middleware is done. -/
theorem uploadFields_filesStored (fs : FileSystem) (s : Submission) :
    (uploadFields fs s).filesStored := by
  unfold uploadFields
  have gen : ∀ (l : List Upload) (st : Received), st.filesStored →
      (l.foldl acceptPart st).filesStored := by
    intro l
    induction l with
    | nil => intro st h; exact h
    | cons u us ih =>
      intro st h
      rw [List.foldl_cons]
      exact ih _ (acceptPart_filesStored st u h)
  apply gen
  constructor <;> intro l hl <;> cases hl

/-- Without a file for `beforeImage`, `req.files.beforeImage` stays as it was. -/
theorem foldl_beforeImage_unchanged (l : List Upload) : ∀ st : Received,
    (∀ u ∈ l, (u.fieldname == "beforeImage" && u.originalname != "") = false) →
    (l.foldl acceptPart st).beforeImage = st.beforeImage := by
  induction l with
  | nil => intro st _; rfl
  | cons u us ih =>
    intro st h
    rw [List.foldl_cons, ih _ (fun v hv => h v (List.mem_cons_of_mem _ hv))]
    have hu := h u (List.mem_cons_self _ _)
    unfold acceptPart
    split
    · rfl
    · split
      · rfl
      · rename_i hname
        split
        · rename_i hfield
          simp [hfield, hname] at hu
        · split
          · split <;> rfl
          · rfl

/-- Without a file for `afterImage`, `req.files.afterImage` stays as it was. -/
theorem foldl_afterImage_unchanged (l : List Upload) : ∀ st : Received,
    (∀ u ∈ l, (u.fieldname == "afterImage" && u.originalname != "") = false) →
    (l.foldl acceptPart st).afterImage = st.afterImage := by
  induction l with
  | nil => intro st _; rfl
  | cons u us ih =>
    intro st h
    rw [List.foldl_cons, ih _ (fun v hv => h v (List.mem_cons_of_mem _ hv))]
    have hu := h u (List.mem_cons_self _ _)
    unfold acceptPart
    split
    · rfl
    · split
      · rfl
      · rename_i hname
        split
        · split <;> rfl
        · split
          · rename_i hfield
            simp [hfield, hname] at hu
          · rfl

/-- An array of `req.files` that is present stays present. -/
theorem foldl_arrays_stay (l : List Upload) : ∀ st : Received,
    (st.beforeImage ≠ none → (l.foldl acceptPart st).beforeImage ≠ none) ∧
    (st.afterImage ≠ none → (l.foldl acceptPart st).afterImage ≠ none) := by
  induction l with
  | nil => intro st; exact ⟨id, id⟩
  | cons u us ih =>
    intro st
    rw [List.foldl_cons]
    have step : (st.beforeImage ≠ none → (acceptPart st u).beforeImage ≠ none) ∧
        (st.afterImage ≠ none → (acceptPart st u).afterImage ≠ none) := by
      unfold acceptPart
      split
      · exact ⟨id, id⟩
      · split
        · exact ⟨id, id⟩
        · split
          · split
            · exact ⟨id, id⟩
            · exact ⟨fun _ => by simp, id⟩
          · split
            · split
              · exact ⟨id, id⟩
              · exact ⟨id, fun _ => by simp⟩
            · exact ⟨id, id⟩
    exact ⟨fun h => (ih _).1 (step.1 h), fun h => (ih _).2 (step.2 h)⟩

/-- A submission that carries a file for `beforeImage` and is not refused has
`req.files.beforeImage` present. -/
theorem foldl_beforeImage_present (l : List Upload) : ∀ st : Received,
    (∃ u ∈ l, (u.fieldname == "beforeImage" && u.originalname != "") = true) →
    (l.foldl acceptPart st).refused = false →
    (l.foldl acceptPart st).beforeImage ≠ none := by
  induction l with
  | nil => intro st ⟨u, hu, _⟩; cases hu
  | cons u us ih =>
    intro st ⟨v, hv, hvf⟩ hfin
    rw [List.foldl_cons] at hfin ⊢
    cases hr : st.refused with
    | true =>
      have h1 : acceptPart st u = st := by unfold acceptPart; rw [if_pos hr]
      rw [h1, foldl_acceptPart_refused us st hr] at hfin
      rw [hr] at hfin
      cases hfin
    | false =>
      rcases List.mem_cons.mp hv with hvu | hvus
      · subst hvu
        simp only [Bool.and_eq_true, beq_iff_eq, bne_iff_ne, ne_eq] at hvf
        obtain ⟨hfield, hname⟩ := hvf
        by_cases hleft : st.beforeLeft = 0
        · have h1 : (acceptPart st v).refused = true := by
            unfold acceptPart
            simp [hr, hname, hfield, hleft]
          rw [foldl_acceptPart_refused us _ h1, h1] at hfin
          cases hfin
        · apply (foldl_arrays_stay us _).1
          unfold acceptPart
          simp [hr, hname, hfield, hleft]
      · exact ih _ ⟨v, hvus, hvf⟩ hfin

/-- A submission that carries a file for `afterImage` and is not refused has
`req.files.afterImage` present. -/
theorem foldl_afterImage_present (l : List Upload) : ∀ st : Received,
    (∃ u ∈ l, (u.fieldname == "afterImage" && u.originalname != "") = true) →
    (l.foldl acceptPart st).refused = false →
    (l.foldl acceptPart st).afterImage ≠ none := by
  induction l with
  | nil => intro st ⟨u, hu, _⟩; cases hu
  | cons u us ih =>
    intro st ⟨v, hv, hvf⟩ hfin
    rw [List.foldl_cons] at hfin ⊢
    cases hr : st.refused with
    | true =>
      have h1 : acceptPart st u = st := by unfold acceptPart; rw [if_pos hr]
      rw [h1, foldl_acceptPart_refused us st hr] at hfin
      rw [hr] at hfin
      cases hfin
    | false =>
      rcases List.mem_cons.mp hv with hvu | hvus
      · subst hvu
        simp only [Bool.and_eq_true, beq_iff_eq, bne_iff_ne, ne_eq] at hvf
        obtain ⟨hfield, hname⟩ := hvf
        have hnb : ¬ v.fieldname = "beforeImage" := by rw [hfield]; decide
        by_cases hleft : st.afterLeft = 0
        · have h1 : (acceptPart st v).refused = true := by
            unfold acceptPart
            simp [hr, hname, hfield, hleft]
          rw [foldl_acceptPart_refused us _ h1, h1] at hfin
          cases hfin
        · apply (foldl_arrays_stay us _).2
          unfold acceptPart
          simp [hr, hname, hfield, hleft]
      · exact ih _ ⟨v, hvus, hvf⟩ hfin

/-! ## Server: validation on the route -/

/-- When no part is refused the route answers what the handler answers. -/
theorem route_accepted (svc : CompletionService) (fs : FileSystem) (s : Submission)
    (h : (uploadFields fs s).refused = false) :
    route svc fs s =
      RouteResult.mk
        (RouteResponse.handled
          (verifyHandler svc (receiveSubmission fs s).1 (receiveSubmission fs s).2).response)
        (verifyHandler svc (receiveSubmission fs s).1 (receiveSubmission fs s).2).calls
        (verifyHandler svc (receiveSubmission fs s).1 (receiveSubmission fs s).2).fs := by
  unfold route
  rw [h]
  rfl

/-- When a part is refused the route answers with the error page and the handler does
not run. -/
theorem route_refused (svc : CompletionService) (fs : FileSystem) (s : Submission)
    (h : (uploadFields fs s).refused = true) :
    (route svc fs s).response = RouteResponse.errorPage 500 ∧ (route svc fs s).calls = [] := by
  unfold route
  rw [h]
  exact ⟨rfl, rfl⟩

/-- A submission that is not refused and carries both files, with an instructions
field that is neither absent nor sent once empty, reaches the completion call. -/
theorem route_reaches_call (svc : CompletionService) (fs : FileSystem) (s : Submission)
    (hacc : (uploadFields fs s).refused = false)
    (hb : s.hasFile "beforeImage" = true) (ha : s.hasFile "afterImage" = true)
    (hv : ¬ (s.instructions = [] ∨ s.instructions = [""])) :
    ∃ value beforeData afterData,
      bodyValue s.instructions = some value ∧ value.isTruthy = true ∧
      (route svc fs s).calls =
        [completionRequest value.templateText (base64 beforeData) (base64 afterData)] := by
  have hinv := uploadFields_filesStored fs s
  have hbp : (uploadFields fs s).beforeImage ≠ none := by
    unfold Submission.hasFile at hb
    obtain ⟨u, hu, hf⟩ := List.any_eq_true.mp hb
    exact foldl_beforeImage_present s.files _ ⟨u, hu, hf⟩ hacc
  have hap : (uploadFields fs s).afterImage ≠ none := by
    unfold Submission.hasFile at ha
    obtain ⟨u, hu, hf⟩ := List.any_eq_true.mp ha
    exact foldl_afterImage_present s.files _ ⟨u, hu, hf⟩ hacc
  cases hbl : (uploadFields fs s).beforeImage with
  | none => exact absurd hbl hbp
  | some bl =>
    cases hal : (uploadFields fs s).afterImage with
    | none => exact absurd hal hap
    | some al =>
      obtain ⟨hbne, hbex⟩ := hinv.1 bl hbl
      obtain ⟨hane, haex⟩ := hinv.2 al hal
      rcases bl with _ | ⟨fb, rb⟩
      · exact absurd rfl hbne
      · rcases al with _ | ⟨fa, ra⟩
        · exact absurd rfl hane
        · have hfb := hbex fb (List.mem_cons_self _ _)
          have hfa := haex fa (List.mem_cons_self _ _)
          unfold existsSync at hfb hfa
          cases hlb : List.lookup fb.path (uploadFields fs s).fs with
          | none => rw [hlb] at hfb; cases hfb
          | some bd =>
            cases hla : List.lookup fa.path (uploadFields fs s).fs with
            | none => rw [hla] at hfa; cases hfa
            | some ad =>
              cases hbv : bodyValue s.instructions with
              | none => exact absurd ((bodyValue_falsy_iff _).mp (Or.inl hbv)) hv
              | some value =>
                cases ht : value.isTruthy with
                | false =>
                  exact absurd ((bodyValue_falsy_iff _).mp (Or.inr ⟨value, hbv, ht⟩)) hv
                | true =>
                  refine ⟨value, bd, ad, rfl, ht, ?_⟩
                  rw [route_accepted svc fs s hacc]
                  exact verifyHandler_single_call svc (receiveSubmission fs s).1
                    (receiveSubmission fs s).2 fb fa rb ra value bd ad
                    (by simp only [receiveSubmission, hbl, hal])
                    (by simp only [receiveSubmission, hbv]) ht hlb hla

/-- C1 as stated fails: a submission without `afterImage` part whose second file is
sent under another field name, or as a second `beforeImage`, is refused by the upload
middleware; the answer is the 500 error page of the framework, not the 400 JSON body
of the handler. -/
theorem route_refused_submission_error_page :
    misnamedForm.hasFile "afterImage" = false ∧
    (route answeringService [] misnamedForm).response = RouteResponse.errorPage 500 ∧
    twoBeforeForm.hasFile "afterImage" = false ∧
    (route answeringService [] twoBeforeForm).response = RouteResponse.errorPage 500 := by
  decide

/-- C1, amended: for every multipart submission in which the `beforeImage` file or
the `afterImage` file is absent, whatever the instructions field holds, no completion
call is made; when the upload middleware accepts the submission the answer is 400 with
the body `{success:false, error:'Missing required files (beforeImage and/or
afterImage)'}`, and when it refuses the submission the answer is the 500 error page
of the framework. -/
theorem route_missing_file (svc : CompletionService) (fs : FileSystem) (s : Submission)
    (h : s.hasFile "beforeImage" = false ∨ s.hasFile "afterImage" = false) :
    (route svc fs s).calls = [] ∧
    ((uploadFields fs s).refused = false →
      (route svc fs s).response =
        RouteResponse.handled
          (HttpResponse.mk 400
            [("success", JsonValue.bool false),
             ("error",
              JsonValue.str "Missing required files (beforeImage and/or afterImage)")])) ∧
    ((uploadFields fs s).refused = true →
      (route svc fs s).response = RouteResponse.errorPage 500) := by
  have hmiss : (receiveSubmission fs s).2.beforePart = none ∨
      (receiveSubmission fs s).2.afterPart = none := by
    rcases h with h | h
    · left
      unfold Submission.hasFile at h
      have := foldl_beforeImage_unchanged s.files (Received.mk fs none none 1 1 [] false)
        (fun u hu => by
          have := List.any_eq_false.mp h u hu
          simpa using this)
      simpa [receiveSubmission, VerifyRequest.beforePart, uploadFields] using this
    · right
      unfold Submission.hasFile at h
      have := foldl_afterImage_unchanged s.files (Received.mk fs none none 1 1 [] false)
        (fun u hu => by
          have := List.any_eq_false.mp h u hu
          simpa using this)
      simpa [receiveSubmission, VerifyRequest.afterPart, uploadFields] using this
  cases hr : (uploadFields fs s).refused with
  | true =>
    exact ⟨(route_refused svc fs s hr).2, fun hh => (by cases hh),
      fun _ => (route_refused svc fs s hr).1⟩
  | false =>
    have hh := verifyHandler_missing_file svc (receiveSubmission fs s).1
      (receiveSubmission fs s).2 hmiss
    rw [route_accepted svc fs s hr, hh]
    exact ⟨rfl, fun _ => rfl, fun hx => (by cases hx)⟩

/-- Witness of the amended C1: the accepted submission without `afterImage` gets the
400 body without a call; the refused one gets the error page without a call. -/
theorem route_missing_file_witness :
    noAfterForm.hasFile "afterImage" = false ∧
    (route answeringService [] noAfterForm).calls = [] ∧
    (route answeringService [] noAfterForm).response =
      RouteResponse.handled
        (HttpResponse.mk 400
          [("success", JsonValue.bool false),
           ("error", JsonValue.str "Missing required files (beforeImage and/or afterImage)")]) ∧
    (route answeringService [] misnamedForm).calls = [] ∧
    (route answeringService [] misnamedForm).response = RouteResponse.errorPage 500 :=
  ⟨by decide,
   (route_missing_file answeringService [] noAfterForm (Or.inr (by decide))).1,
   (route_missing_file answeringService [] noAfterForm (Or.inr (by decide))).2.1 (by decide),
   (route_missing_file answeringService [] misnamedForm (Or.inr (by decide))).1,
   (route_missing_file answeringService [] misnamedForm (Or.inr (by decide))).2.2 (by decide)⟩

/-- C2 as stated fails: instructions made of white space only (a space, a tab, a
newline) pass the validation, the completion call is made and the answer is 200; an
instructions field sent twice with empty values arrives as an array, which is truthy,
and the call is made as well; and a submission without instructions that the upload
middleware refuses gets the 500 error page, not the 400 body. -/
theorem verify_blank_instructions_accepted :
    blankSubmission.2.verificationInstructions = some (FieldValue.text " \t\n") ∧
    isBlank " \t\n" = true ∧
    (verifyHandler answeringService blankSubmission.1 blankSubmission.2).response.status = 200 ∧
    (verifyHandler answeringService blankSubmission.1 blankSubmission.2).calls.length = 1 ∧
    (route answeringService [] blankForm).calls.length = 1 ∧
    (route answeringService [] repeatedEmptyForm).calls.length = 1 ∧
    twoBeforeForm.instructions = [] ∧
    (route answeringService [] twoBeforeForm).response = RouteResponse.errorPage 500 := by
  decide

/-- C2, amended: for every multipart submission that the upload middleware accepts,
if the instructions field is absent or sent once with the empty value, the answer is
400 with a body `{success:false, error:<text>}` and no completion call is made (with
both image files present the text is `Missing verification instructions`); every
other instructions field, white space only included, passes this validation: with
both image files present exactly one completion call is made and the answer is not
400. A submission that the middleware refuses is answered with the 500 error page of
the framework, without a completion call. -/
theorem route_instructions_validation (svc : CompletionService) (fs : FileSystem)
    (s : Submission) :
    ((uploadFields fs s).refused = true →
      (route svc fs s).response = RouteResponse.errorPage 500 ∧ (route svc fs s).calls = []) ∧
    ((uploadFields fs s).refused = false →
      (s.instructions = [] ∨ s.instructions = [""]) →
      (route svc fs s).calls = [] ∧
      (∃ text, (route svc fs s).response =
        RouteResponse.handled
          (HttpResponse.mk 400
            [("success", JsonValue.bool false), ("error", JsonValue.str text)])) ∧
      (s.hasFile "beforeImage" = true → s.hasFile "afterImage" = true →
        (route svc fs s).response =
          RouteResponse.handled
            (HttpResponse.mk 400
              [("success", JsonValue.bool false),
               ("error", JsonValue.str "Missing verification instructions")]))) ∧
    ((uploadFields fs s).refused = false →
      s.hasFile "beforeImage" = true → s.hasFile "afterImage" = true →
      ¬ (s.instructions = [] ∨ s.instructions = [""]) →
      (∃ call, (route svc fs s).calls = [call]) ∧
      ∀ r, (route svc fs s).response = RouteResponse.handled r → r.status ≠ 400) := by
  refine ⟨route_refused svc fs s, ?_, ?_⟩
  · intro hacc hv
    have hfalsy := (bodyValue_falsy_iff s.instructions).mpr hv
    cases hbl : (uploadFields fs s).beforeImage with
    | none =>
      have hh := verifyHandler_missing_file svc (receiveSubmission fs s).1
        (receiveSubmission fs s).2
        (Or.inl (by simp [receiveSubmission, VerifyRequest.beforePart, hbl]))
      rw [route_accepted svc fs s hacc, hh]
      refine ⟨rfl, ⟨_, rfl⟩, fun hb _ => ?_⟩
      unfold Submission.hasFile at hb
      obtain ⟨u, hu, hf⟩ := List.any_eq_true.mp hb
      exact absurd hbl (foldl_beforeImage_present s.files _ ⟨u, hu, hf⟩ hacc)
    | some bl =>
      cases hal : (uploadFields fs s).afterImage with
      | none =>
        have hh := verifyHandler_missing_file svc (receiveSubmission fs s).1
          (receiveSubmission fs s).2
          (Or.inr (by simp [receiveSubmission, VerifyRequest.afterPart, hal]))
        rw [route_accepted svc fs s hacc, hh]
        refine ⟨rfl, ⟨_, rfl⟩, fun _ ha => ?_⟩
        unfold Submission.hasFile at ha
        obtain ⟨u, hu, hf⟩ := List.any_eq_true.mp ha
        exact absurd hal (foldl_afterImage_present s.files _ ⟨u, hu, hf⟩ hacc)
      | some al =>
        have hh := verifyHandler_missing_instructions svc (receiveSubmission fs s).1
          (receiveSubmission fs s).2 bl al (by simp only [receiveSubmission, hbl, hal])
          hfalsy
        rw [route_accepted svc fs s hacc, hh]
        exact ⟨rfl, ⟨_, rfl⟩, fun _ _ => rfl⟩
  · intro hacc hb ha hv
    obtain ⟨value, bd, ad, _, _, hcalls⟩ := route_reaches_call svc fs s hacc hb ha hv
    refine ⟨⟨_, hcalls⟩, ?_⟩
    rw [route_accepted svc fs s hacc] at hcalls ⊢
    intro r hr
    simp only [RouteResponse.handled.injEq] at hr
    rw [← hr]
    rcases verifyHandler_outcome svc (receiveSubmission fs s).1 (receiveSubmission fs s).2
      with h | h | h | h | h
    · rw [h.2.1] at hcalls; cases hcalls
    · rw [h.1]; decide
    · obtain ⟨_, _, _, _, hresp, _⟩ := h
      rw [hresp]
      exact (by decide : (500 : Nat) ≠ 400)
    · obtain ⟨_, _, _, _, hst⟩ := h
      rw [hst]; decide
    · obtain ⟨_, _, _, _, _, _, _, _, _, _, _, _, hresp, _⟩ := h
      rw [hresp]
      exact (by decide : (200 : Nat) ≠ 400)

/-- Witness of the amended C2: the accepted submission without instructions is
rejected with the instructions message and no call; the white-space submission and
the twice-empty one each reach one completion call. -/
theorem route_instructions_validation_witness :
    (route answeringService [] noInstructionsForm).calls = [] ∧
    (route answeringService [] noInstructionsForm).response =
      RouteResponse.handled
        (HttpResponse.mk 400
          [("success", JsonValue.bool false),
           ("error", JsonValue.str "Missing verification instructions")]) ∧
    (∃ call, (route answeringService [] blankForm).calls = [call]) ∧
    (∃ call, (route answeringService [] repeatedEmptyForm).calls = [call]) :=
  ⟨((route_instructions_validation answeringService [] noInstructionsForm).2.1 (by decide)
      (Or.inl rfl)).1,
   ((route_instructions_validation answeringService [] noInstructionsForm).2.1 (by decide)
      (Or.inl rfl)).2.2 (by decide) (by decide),
   ((route_instructions_validation answeringService [] blankForm).2.2 (by decide)
      (by decide) (by decide) (by decide)).1,
   ((route_instructions_validation answeringService [] repeatedEmptyForm).2.2 (by decide)
      (by decide) (by decide) (by decide)).1⟩

/-! ## Upload naming -/

/-- The character of a decimal digit has code 48 plus the digit. -/
theorem digitChar_toNat (k : Nat) (h : k < 10) : (Nat.digitChar k).toNat = k + 48 := by
  interval_cases k <;> rfl

/-- No decimal digit is printed as a hyphen. -/
theorem digitChar_ne_hyphen (k : Nat) (h : k < 10) : Nat.digitChar k ≠ '-' := by
  intro hk
  have := digitChar_toNat k h
  rw [hk] at this
  have h45 : ('-' : Char).toNat = 45 := rfl
  omega

/-- Reading the printed digits back continues from the number printed. -/
theorem toDigitsCore_value (fuel : Nat) : ∀ (n : Nat) (ds : List Char), n < fuel →
    List.foldl (fun acc c => acc * 10 + (c.toNat - 48)) 0 (Nat.toDigitsCore 10 fuel n ds) =
      List.foldl (fun acc c => acc * 10 + (c.toNat - 48)) n ds := by
  induction fuel with
  | zero => intro n ds h; omega
  | succ fuel ih =>
    intro n ds h
    have hd := digitChar_toNat (n % 10) (Nat.mod_lt n (by decide))
    unfold Nat.toDigitsCore
    dsimp only
    split
    · rename_i h0
      rw [List.foldl_cons, hd]
      congr 1
      omega
    · rename_i h0
      rw [ih (n / 10) _ (by omega), List.foldl_cons, hd]
      congr 1
      omega

/-- Reading the decimal digits of a number back gives the number. -/
theorem toDigits_value (n : Nat) : decimalValue (Nat.toDigits 10 n) = n := by
  unfold decimalValue Nat.toDigits
  rw [toDigitsCore_value (n + 1) n [] (Nat.lt_succ_self n)]
  rfl

/-- The printed digits of a number hold no hyphen. -/
theorem toDigitsCore_no_hyphen (fuel : Nat) : ∀ (n : Nat) (ds : List Char),
    (∀ c ∈ ds, c ≠ '-') → ∀ c ∈ Nat.toDigitsCore 10 fuel n ds, c ≠ '-' := by
  induction fuel with
  | zero => intro n ds h; exact h
  | succ fuel ih =>
    intro n ds h
    have hd := digitChar_ne_hyphen (n % 10) (Nat.mod_lt n (by decide))
    have hcons : ∀ c ∈ Nat.digitChar (n % 10) :: ds, c ≠ '-' := by
      intro c hc
      rcases List.mem_cons.mp hc with hc | hc
      · rw [hc]; exact hd
      · exact h c hc
    unfold Nat.toDigitsCore
    dsimp only
    split
    · exact hcons
    · exact ih (n / 10) _ hcons

/-- A list is cut in one way only at the first occurrence of a separator. -/
theorem append_sep_inj {α : Type} (a : α) : ∀ (l1 l2 r1 r2 : List α),
    a ∉ l1 → a ∉ l2 → l1 ++ a :: r1 = l2 ++ a :: r2 → l1 = l2 ∧ r1 = r2 := by
  intro l1
  induction l1 with
  | nil =>
    intro l2 r1 r2 _ h2 h
    cases l2 with
    | nil => exact ⟨rfl, (List.cons.inj h).2⟩
    | cons x xs =>
      have := (List.cons.inj h).1
      exact absurd (this ▸ List.mem_cons_self _ _) h2
  | cons y ys ih =>
    intro l2 r1 r2 h1 h2 h
    cases l2 with
    | nil =>
      have := (List.cons.inj h).1
      exact absurd (this ▸ List.mem_cons_self _ _) h1
    | cons x xs =>
      obtain ⟨hxy, hrest⟩ := List.cons.inj h
      obtain ⟨hl, hr⟩ := ih xs r1 r2 (fun hm => h1 (List.mem_cons_of_mem _ hm))
        (fun hm => h2 (List.mem_cons_of_mem _ hm)) hrest
      exact ⟨by rw [hxy, hl], hr⟩

/-- The characters of a storage name: the digits of the time stamp, a hyphen, the
original file name. -/
theorem storageFilename_data (now : Nat) (name : String) :
    (storageFilename now name).data = Nat.toDigits 10 now ++ '-' :: name.data := by
  unfold storageFilename
  simp only [String.data_append, List.append_assoc]
  rfl

/-- The storage name determines the time stamp and the original file name. -/
theorem storageFilename_inj (n m : Nat) (a b : String)
    (h : storageFilename n a = storageFilename m b) : n = m ∧ a = b := by
  have hd := congrArg String.data h
  rw [storageFilename_data, storageFilename_data] at hd
  have hn : ('-' : Char) ∉ Nat.toDigits 10 n := fun hm =>
    toDigitsCore_no_hyphen (n + 1) n [] (fun _ hc => absurd hc (List.not_mem_nil _)) _ hm rfl
  have hm : ('-' : Char) ∉ Nat.toDigits 10 m := fun hm =>
    toDigitsCore_no_hyphen (m + 1) m [] (fun _ hc => absurd hc (List.not_mem_nil _)) _ hm rfl
  obtain ⟨h1, h2⟩ := append_sep_inj '-' _ _ _ _ hn hm hd
  refine ⟨?_, String.ext h2⟩
  rw [← toDigits_value n, ← toDigits_value m, h1]

/-- Two uploads receive the same storage name exactly when they arrive in the same
millisecond and carry the same original file name; uploads that differ in either
receive distinct names. -/
theorem generatedName_eq_iff (u v : Upload) :
    u.generatedName = v.generatedName ↔
      u.arrival = v.arrival ∧ u.originalname = v.originalname := by
  constructor
  · exact storageFilename_inj u.arrival v.arrival u.originalname v.originalname
  · intro h
    unfold Upload.generatedName
    rw [h.1, h.2]

/-- C7 fails on the code: the `beforeImage` part and the `afterImage` part of one
submission, two distinct uploads with the same original file name received in the
same millisecond, receive the same storage name, and the second upload replaces the
bytes persisted for the first. -/
theorem distinct_uploads_share_name :
    photoBefore ≠ photoAfter ∧
    photoBefore.generatedName = "1700000000000-photo.jpg" ∧
    photoAfter.generatedName = "1700000000000-photo.jpg" ∧
    List.lookup photoBefore.storagePath (persistUpload [] photoBefore).1 =
      some photoBefore.data ∧
    List.lookup photoBefore.storagePath
      (persistUpload (persistUpload [] photoBefore).1 photoAfter).1 = some photoAfter.data := by
  decide

/-! ## Server: processing -/

/-- When the two uploads are stored under different paths, both files can be read and
the completion call resolves with a first choice, the answer is 200 with that choice's
content as `analysis`, untransformed. -/
theorem verify_relays_analysis_distinct_paths (svc : CompletionService) (fs : FileSystem)
    (req : VerifyRequest) (fb fa : UploadedFile) (rb ra : List UploadedFile)
    (value : FieldValue) (bb ab : String) (ch : Choice) (rest : List Choice)
    (hf : req.files = some (UploadedFiles.mk (some (fb :: rb)) (some (fa :: ra))))
    (hi : req.verificationInstructions = some value) (hne : value.isTruthy = true)
    (hb : readFileSyncBase64 fs fb.path = Except.ok bb)
    (ha : readFileSyncBase64 fs fa.path = Except.ok ab)
    (hs : svc (completionRequest value.templateText bb ab) =
      Except.ok (CompletionResponse.mk (ch :: rest)))
    (hp : fb.path ≠ fa.path) :
    (verifyHandler svc fs req).response = HttpResponse.mk 200 (successBody ch.content) := by
  have h1 := unlinkSync_of_exists fs fb.path (readFile_ok_exists fs fb.path bb hb)
  have h2 : existsSync (fs.filter (fun e => e.1 != fb.path)) fa.path = true := by
    have := readFile_ok_exists fs fa.path ab ha
    unfold existsSync at this ⊢
    rw [lookup_filter_ne_other fs fb.path fa.path (fun hh => hp hh.symm)]
    exact this
  have h3 := unlinkSync_of_exists _ fa.path h2
  rw [verifyHandler_validated svc fs req fb fa rb ra value hf hi hne]
  simp only [hb, ha, hs, h1, h3, List.head?_cons]

/-- The scenario submission is answered with 200 and the analysis text of the
completion service, untransformed. -/
theorem verify_relays_analysis_distinct_paths_witness :
    (verifyHandler answeringService wallSubmission.1 wallSubmission.2).response =
      HttpResponse.mk 200
        [("success", JsonValue.bool true), ("analysis", JsonValue.str wallAnalysis)] :=
  verify_relays_analysis_distinct_paths answeringService wallSubmission.1 wallSubmission.2
    (UploadedFile.mk "beforeImage" "wall_before.jpg" wallBefore.storagePath)
    (UploadedFile.mk "afterImage" "wall_after.jpg" wallAfter.storagePath) [] []
    (FieldValue.text wallInstructions) (base64 wallBefore.data) (base64 wallAfter.data)
    (Choice.mk (some wallAnalysis)) [] rfl rfl (by decide) rfl rfl rfl (by decide)

/-- C3 fails on the code: two images with the same file name received in the same
millisecond are stored under one path; the completion call is made and resolves with
the analysis text, the first unlink removes the file, the second throws, and the
answer is 500 with the `ENOENT` message instead of 200 with the analysis. -/
theorem verify_same_name_uploads_answer_500 :
    photoBefore.storagePath = photoAfter.storagePath ∧
    (verifyHandler answeringService photoSubmission.1 photoSubmission.2).calls.map
      answeringService =
      [Except.ok (CompletionResponse.mk [Choice.mk (some wallAnalysis)])] ∧
    (verifyHandler answeringService photoSubmission.1 photoSubmission.2).response =
      HttpResponse.mk 500
        [("success", JsonValue.bool false),
         ("error", JsonValue.str
           "ENOENT: no such file or directory, unlink \x27uploads/1700000000000-photo.jpg\x27")] :=
  ⟨by decide, rfl, by decide⟩

/-- C4: when a completion call was made and it fails with an error of message `m`,
the answer is status 500 with body `{success:false, error:m}`, which has no
`analysis` field. -/
theorem verify_service_failure (svc : CompletionService) (fs : FileSystem)
    (req : VerifyRequest) (c : CompletionRequest) (m : String)
    (hc : c ∈ (verifyHandler svc fs req).calls) (hm : svc c = Except.error m) :
    (verifyHandler svc fs req).response =
      HttpResponse.mk 500 [("success", JsonValue.bool false), ("error", JsonValue.str m)] ∧
    JsonObject.field (verifyHandler svc fs req).response.body "analysis" = none := by
  have key : (verifyHandler svc fs req).response = HttpResponse.mk 500 (failureBody m) := by
    rcases verifyHandler_outcome svc fs req with h | h | h | h | h
    · rw [h.2.1] at hc; cases hc
    · rw [h.2.1] at hc; cases hc
    · obtain ⟨c1, m1, hcalls, hsvc, hresp, _⟩ := h
      rw [hcalls, List.mem_singleton] at hc
      subst hc
      rw [hsvc] at hm
      cases hm
      exact hresp
    · obtain ⟨c1, r, hcalls, hsvc, _⟩ := h
      rw [hcalls, List.mem_singleton] at hc
      subst hc
      rw [hsvc] at hm
      cases hm
    · obtain ⟨c1, r, _, _, _, _, _, _, hcalls, hsvc, _⟩ := h
      rw [hcalls, List.mem_singleton] at hc
      subst hc
      rw [hsvc] at hm
      cases hm
  rw [key]
  exact ⟨rfl, by simp [JsonObject.field, failureBody, List.lookup]⟩

/-- Witness of C4: the scenario submission against a service that rejects with
`quota exceeded`. -/
theorem verify_service_failure_witness :
    (verifyHandler (failingService "quota exceeded") wallSubmission.1
      wallSubmission.2).response =
      HttpResponse.mk 500
        [("success", JsonValue.bool false), ("error", JsonValue.str "quota exceeded")] ∧
    JsonObject.field (verifyHandler (failingService "quota exceeded") wallSubmission.1
      wallSubmission.2).response.body "analysis" = none :=
  verify_service_failure (failingService "quota exceeded") wallSubmission.1 wallSubmission.2
    (completionRequest wallInstructions (base64 wallBefore.data) (base64 wallAfter.data))
    "quota exceeded" (List.mem_singleton.mpr rfl) rfl

/-- Two uploads are stored under the same path exactly when they arrive in the same
millisecond and carry the same original file name. -/
theorem storagePath_eq_iff (u v : Upload) :
    u.storagePath = v.storagePath ↔
      u.arrival = v.arrival ∧ u.originalname = v.originalname := by
  rw [← generatedName_eq_iff]
  constructor
  · intro h
    have hd := congrArg String.data h
    simp only [Upload.storagePath, String.data_append] at hd
    exact String.ext (List.append_cancel_left hd)
  · intro h
    unfold Upload.storagePath
    rw [h]

/-- Reading a path back after a write gives the bytes written. -/
theorem lookup_writeFile_self (fs : FileSystem) (p : String) (data : Bytes) :
    List.lookup p (writeFile fs p data) = some data := by
  simp [writeFile, List.lookup_cons]

/-- A write leaves every other path as it was. -/
theorem lookup_writeFile_other (fs : FileSystem) (p q : String) (data : Bytes)
    (h : q ≠ p) : List.lookup q (writeFile fs p data) = List.lookup q fs := by
  unfold writeFile
  rw [List.lookup_cons, beq_eq_false_iff_ne.mpr h]
  exact lookup_filter_ne_other fs p q h

/-- A submission made of a `beforeImage` part and an `afterImage` part that differ in
arrival millisecond or in original file name, with a truthy instructions value, leads
to exactly one completion call; its single user message has three blocks in this
order: the template text with the instructions substituted in, the data URL of the
base64 encoding of the submitted before image, the data URL of the base64 encoding of
the submitted after image, both with detail `high`. -/
theorem route_sends_submitted_images (svc : CompletionService) (fs : FileSystem)
    (b a : Upload) (values : List String) (value : FieldValue)
    (hbf : b.fieldname = "beforeImage") (haf : a.fieldname = "afterImage")
    (hbn : b.originalname ≠ "") (han : a.originalname ≠ "")
    (hd : b.arrival ≠ a.arrival ∨ b.originalname ≠ a.originalname)
    (hv : bodyValue values = some value) (ht : value.isTruthy = true) :
    (route svc fs (Submission.mk [b, a] values)).calls =
      [CompletionRequest.mk "gpt-4o-2024-08-06"
        [ChatMessage.mk "user"
          [ContentBlock.text (promptHead ++ value.templateText ++ promptTail),
           ContentBlock.image_url ("data:image/jpeg;base64," ++ base64 b.data) "high",
           ContentBlock.image_url ("data:image/jpeg;base64," ++ base64 a.data) "high"]]
        1000] := by
  have hpath : b.storagePath ≠ a.storagePath := by
    intro h
    have := (storagePath_eq_iff b a).mp h
    rcases hd with hd | hd
    · exact hd this.1
    · exact hd this.2
  have hab : ¬ a.fieldname = "beforeImage" := by rw [haf]; decide
  have hst : uploadFields fs (Submission.mk [b, a] values) =
      Received.mk (writeFile (writeFile fs b.storagePath b.data) a.storagePath a.data)
        (some [UploadedFile.mk b.fieldname b.originalname b.storagePath])
        (some [UploadedFile.mk a.fieldname a.originalname a.storagePath])
        0 0 [b.storagePath, a.storagePath] false := by
    simp [uploadFields, acceptPart, persistUpload, hbf, haf, hbn, han]
  have hacc : (uploadFields fs (Submission.mk [b, a] values)).refused = false := by
    rw [hst]
  rw [route_accepted svc fs _ hacc]
  exact verifyHandler_single_call svc _ _
    (UploadedFile.mk b.fieldname b.originalname b.storagePath)
    (UploadedFile.mk a.fieldname a.originalname a.storagePath) [] [] value b.data a.data
    (by simp only [receiveSubmission, hst])
    (by simp only [receiveSubmission, hv]) ht
    (by
      simp only [receiveSubmission, hst]
      rw [lookup_writeFile_other _ _ _ _ hpath]
      exact lookup_writeFile_self _ _ _)
    (by
      simp only [receiveSubmission, hst]
      exact lookup_writeFile_self _ _ _)

/-- The scenario submission leads to one completion call that carries the two
submitted images, before then after. -/
theorem route_sends_submitted_images_witness :
    base64 wallBefore.data = "/9j/4A==" ∧
    base64 wallAfter.data = "/9j/4Q==" ∧
    (route answeringService [] wallForm).calls =
      [CompletionRequest.mk "gpt-4o-2024-08-06"
        [ChatMessage.mk "user"
          [ContentBlock.text (promptHead ++ "Verify the wall has been repainted" ++ promptTail),
           ContentBlock.image_url "data:image/jpeg;base64,/9j/4A==" "high",
           ContentBlock.image_url "data:image/jpeg;base64,/9j/4Q==" "high"]]
        1000] :=
  ⟨by decide, by decide,
   route_sends_submitted_images answeringService [] wallBefore wallAfter [wallInstructions]
     (FieldValue.text wallInstructions) rfl rfl (by decide) (by decide)
     (Or.inr (by decide)) rfl (by decide)⟩

/-- C5 fails on the code: for the submission whose two images are both named
`photo.jpg` and arrive in the same millisecond, the two images differ (their base64
encodings are `/9j/4A==` and `/9j/4Q==`) but are stored under one path, and the one
completion call carries the same data URL in both image blocks, so the first image
block is not the encoding of the before image. Whatever bytes the shared path holds
when the handler runs, both image blocks carry the encoding of those bytes. -/
theorem verify_same_name_uploads_send_one_image :
    photoBefore.data ≠ photoAfter.data ∧
    base64 photoBefore.data = "/9j/4A==" ∧
    base64 photoAfter.data = "/9j/4Q==" ∧
    (route answeringService [] photoForm).calls =
      [CompletionRequest.mk "gpt-4o-2024-08-06"
        [ChatMessage.mk "user"
          [ContentBlock.text (promptHead ++ "Verify the wall has been repainted" ++ promptTail),
           ContentBlock.image_url "data:image/jpeg;base64,/9j/4Q==" "high",
           ContentBlock.image_url "data:image/jpeg;base64,/9j/4Q==" "high"]]
        1000] ∧
    ∀ stored : Bytes,
      (verifyHandler answeringService [(photoBefore.storagePath, stored)]
        photoSubmission.2).calls =
        [CompletionRequest.mk "gpt-4o-2024-08-06"
          [ChatMessage.mk "user"
            [ContentBlock.text
               (promptHead ++ "Verify the wall has been repainted" ++ promptTail),
             ContentBlock.image_url ("data:image/jpeg;base64," ++ base64 stored) "high",
             ContentBlock.image_url ("data:image/jpeg;base64," ++ base64 stored) "high"]]
          1000] := by
  refine ⟨by decide, by decide, by decide, rfl, fun stored => ?_⟩
  exact verifyHandler_single_call answeringService [(photoBefore.storagePath, stored)]
    photoSubmission.2
    (UploadedFile.mk "beforeImage" "photo.jpg" photoBefore.storagePath)
    (UploadedFile.mk "afterImage" "photo.jpg" photoAfter.storagePath) [] []
    (FieldValue.text wallInstructions) stored stored rfl rfl (by decide)
    (by simp [List.lookup_cons]) (by
      have : photoAfter.storagePath = photoBefore.storagePath := by decide
      rw [this]
      simp [List.lookup_cons])

/-- C6: when the answer is the success response (status 200), the paths of the
`beforeImage` and `afterImage` uploads of the request do not exist in transient
storage at the time the response is sent. -/
theorem verify_success_cleans_up (svc : CompletionService) (fs : FileSystem)
    (req : VerifyRequest) (h : (verifyHandler svc fs req).response.status = 200) :
    ∃ fb rb fa ra,
      req.files = some (UploadedFiles.mk (some (fb :: rb)) (some (fa :: ra))) ∧
      existsSync (verifyHandler svc fs req).fs fb.path = false ∧
      existsSync (verifyHandler svc fs req).fs fa.path = false := by
  rcases verifyHandler_outcome svc fs req with h1 | h1 | h1 | h1 | h1
  · rw [h1.1] at h; cases h
  · rw [h1.1] at h; cases h
  · obtain ⟨_, _, _, _, hresp, _⟩ := h1
    rw [hresp] at h; cases h
  · obtain ⟨_, _, _, _, hst⟩ := h1
    rw [hst] at h; cases h
  · obtain ⟨_, _, _, _, fb, rb, fa, ra, _, _, _, hfiles, _, hb, ha⟩ := h1
    exact ⟨fb, rb, fa, ra, hfiles, hb, ha⟩

/-- Witness of C6: the scenario submission ends with 200 and both files are gone. -/
theorem verify_success_cleans_up_witness :
    (verifyHandler answeringService wallSubmission.1 wallSubmission.2).response.status = 200 ∧
    existsSync wallSubmission.1 wallBefore.storagePath = true ∧
    existsSync wallSubmission.1 wallAfter.storagePath = true ∧
    ∃ fb rb fa ra,
      wallSubmission.2.files = some (UploadedFiles.mk (some (fb :: rb)) (some (fa :: ra))) ∧
      existsSync (verifyHandler answeringService wallSubmission.1 wallSubmission.2).fs
        fb.path = false ∧
      existsSync (verifyHandler answeringService wallSubmission.1 wallSubmission.2).fs
        fa.path = false :=
  ⟨by decide, by decide, by decide,
   verify_success_cleans_up answeringService wallSubmission.1 wallSubmission.2 (by decide)⟩

/-- C10: the handler deletes transient files only after a successful completion
call. If some path that existed when the handler started no longer exists when the
response is sent, then exactly one completion call was made and it resolved without
error; on a validation rejection (400) and on a failed completion call the file
system is unchanged, so every file persisted for the request is still present. -/
theorem verify_deletes_only_after_success (svc : CompletionService) (fs : FileSystem)
    (req : VerifyRequest) :
    ((∃ p, existsSync fs p = true ∧ existsSync (verifyHandler svc fs req).fs p = false) →
      ∃ c r, (verifyHandler svc fs req).calls = [c] ∧ svc c = Except.ok r) ∧
    ((verifyHandler svc fs req).response.status = 400 →
      (verifyHandler svc fs req).fs = fs ∧ (verifyHandler svc fs req).calls = []) ∧
    (∀ c m, c ∈ (verifyHandler svc fs req).calls → svc c = Except.error m →
      (verifyHandler svc fs req).response.status = 500 ∧
      (verifyHandler svc fs req).fs = fs) := by
  have same : ∀ {fs1 : FileSystem}, fs1 = fs →
      ¬ ∃ p, existsSync fs p = true ∧ existsSync fs1 p = false := by
    intro fs1 h1 ⟨p, hp, hq⟩
    rw [h1, hp] at hq
    cases hq
  rcases verifyHandler_outcome svc fs req with h | h | h | h | h
  · refine ⟨fun hd => absurd hd (same h.2.2), fun _ => ⟨h.2.2, h.2.1⟩, ?_⟩
    intro c m hc
    rw [h.2.1] at hc; cases hc
  · refine ⟨fun hd => absurd hd (same h.2.2), fun hs => ?_, ?_⟩
    · rw [h.1] at hs; cases hs
    · intro c m hc
      rw [h.2.1] at hc; cases hc
  · obtain ⟨c1, m1, hcalls, hsvc, hresp, hfs⟩ := h
    refine ⟨fun hd => absurd hd (same hfs), fun hs => ?_, ?_⟩
    · rw [hresp] at hs; cases hs
    · intro c m _ _
      exact ⟨by rw [hresp], hfs⟩
  · obtain ⟨c1, r, hcalls, hsvc, hst⟩ := h
    refine ⟨fun _ => ⟨c1, r, hcalls, hsvc⟩, fun hs => ?_, ?_⟩
    · rw [hst] at hs; cases hs
    · intro c m hc hm
      rw [hcalls, List.mem_singleton] at hc
      subst hc
      rw [hsvc] at hm; cases hm
  · obtain ⟨c1, r, _, _, _, _, _, _, hcalls, hsvc, _, _, hresp, _⟩ := h
    refine ⟨fun _ => ⟨c1, r, hcalls, hsvc⟩, fun hs => ?_, ?_⟩
    · rw [hresp] at hs; cases hs
    · intro c m hc hm
      rw [hcalls, List.mem_singleton] at hc
      subst hc
      rw [hsvc] at hm; cases hm

/-- Witness of C10: in the scenario run a persisted file is deleted, and the
completion call was made and resolved; against a failing service nothing is deleted. -/
theorem verify_deletes_only_after_success_witness :
    (∃ c r, (verifyHandler answeringService wallSubmission.1 wallSubmission.2).calls = [c] ∧
      answeringService c = Except.ok r) ∧
    (verifyHandler (failingService "quota exceeded") wallSubmission.1 wallSubmission.2).fs =
      wallSubmission.1 :=
  ⟨(verify_deletes_only_after_success answeringService wallSubmission.1 wallSubmission.2).1
      ⟨wallBefore.storagePath, by decide, by decide⟩,
   ((verify_deletes_only_after_success (failingService "quota exceeded") wallSubmission.1
      wallSubmission.2).2.2
      (completionRequest wallInstructions (base64 wallBefore.data) (base64 wallAfter.data))
      "quota exceeded" (List.mem_singleton.mpr rfl) rfl).2⟩

/-! ## Base64 -/

/-- Each of the 64 characters of the alphabet has its position as value and is not the
padding character. -/
theorem base64Alphabet_spec :
    ∀ k, k < 64 → base64Index (base64Alphabet.getD k 'A') = k ∧
      base64Alphabet.getD k 'A' ≠ '=' := by
  decide

/-- The value of the character of `n` is `n` modulo 64. -/
theorem base64Index_base64Char (n : Nat) : base64Index (base64Char n) = n % 64 :=
  (base64Alphabet_spec (n % 64) (Nat.mod_lt n (by decide))).1

/-- No character of the encoding of a 6-bit value is the padding character. -/
theorem base64Char_ne_pad (n : Nat) : base64Char n ≠ '=' :=
  (base64Alphabet_spec (n % 64) (Nat.mod_lt n (by decide))).2

/-- Decoding the base64 encoding of a byte list gives the bytes back. -/
theorem base64Decode_base64Chars (data : Bytes) :
    base64Decode (base64Chars data) = data.map (fun b => b % 256) := by
  induction data using base64Chars.induct with
  | case1 => rfl
  | case2 a =>
    simp only [base64Chars, base64Decode, base64Index_base64Char, List.map_cons, List.map_nil,
      if_true]
    congr 1
    omega
  | case3 a b =>
    simp only [base64Chars, base64Decode, base64Index_base64Char, List.map_cons, List.map_nil,
      base64Char_ne_pad, if_false, if_true]
    congr 1
    · omega
    · congr 1
      omega
  | case4 a b c rest ih =>
    simp only [base64Chars, base64Decode, base64Index_base64Char, List.map_cons,
      base64Char_ne_pad, if_false, ih]
    congr 1
    · omega
    · congr 1
      · omega
      · congr 1
        omega

/-- Byte lists with different bytes have different base64 texts. -/
theorem base64_injective (x y : Bytes) (h : base64 x = base64 y) :
    x.map (fun b => b % 256) = y.map (fun b => b % 256) := by
  have hc : base64Chars x = base64Chars y := congrArg String.data h
  rw [← base64Decode_base64Chars x, ← base64Decode_base64Chars y, hc]

/-! ## Client: submission -/

/-- Dropping white space from a list leaves nothing exactly when every character is
white space. -/
theorem dropWhile_eq_nil_iff_all (cs : List Char) :
    cs.dropWhile isJsWhiteSpace = [] ↔ cs.all isJsWhiteSpace = true := by
  induction cs with
  | nil => simp
  | cons c cs ih =>
    cases hc : isJsWhiteSpace c with
    | true => simp [List.dropWhile_cons, hc, ih]
    | false => simp [List.dropWhile_cons, hc]

/-- The head of what `dropWhile` leaves is not white space. -/
theorem dropWhile_head_not_ws (cs : List Char) (c : Char) (rest : List Char)
    (h : cs.dropWhile isJsWhiteSpace = c :: rest) : isJsWhiteSpace c = false := by
  induction cs with
  | nil => simp at h
  | cons d ds ih =>
    cases hd : isJsWhiteSpace d with
    | true =>
      rw [List.dropWhile_cons, hd] at h
      exact ih h
    | false =>
      rw [List.dropWhile_cons, hd] at h
      simp only [Bool.false_eq_true, if_false] at h
      rw [← (List.cons.inj h).1]
      exact hd

/-- A text trims to the empty text exactly when it is made of white space only. -/
theorem jsTrim_eq_empty_iff (text : String) : jsTrim text = "" ↔ isBlank text = true := by
  unfold jsTrim isBlank
  rw [← dropWhile_eq_nil_iff_all]
  constructor
  · intro h
    have h1 := congrArg String.data h
    simp only [List.reverse_eq_nil_iff] at h1
    change List.dropWhile isJsWhiteSpace (List.dropWhile isJsWhiteSpace text.data).reverse = []
      at h1
    rw [dropWhile_eq_nil_iff_all] at h1
    cases hd : List.dropWhile isJsWhiteSpace text.data with
    | nil => rfl
    | cons c rest =>
      have hc := dropWhile_head_not_ws _ _ _ hd
      rw [hd] at h1
      have := List.all_eq_true.mp h1 c (by simp)
      rw [hc] at this
      cases this
  · intro h
    rw [h]
    rfl

/-- C8: `handleSubmit` sends a request only if both images are set and the
instructions are non-empty after trimming. Otherwise it sends nothing, leaves
`loading` as it was (false, no request being outstanding) and sets the local error:
`Please upload both before and after images` when an image is missing, whatever the
instructions, else `Please enter verification instructions`. -/
theorem handleSubmit_validation (post : Transport) (s : FormState) :
    ((handleSubmit post s).2 ≠ [] →
      s.beforeImage ≠ none ∧ s.afterImage ≠ none ∧ jsTrim s.verificationInstructions ≠ "") ∧
    (s.beforeImage = none ∨ s.afterImage = none →
      (handleSubmit post s).2 = [] ∧
      (handleSubmit post s).1.loading = s.loading ∧
      (handleSubmit post s).1.error = some "Please upload both before and after images") ∧
    (s.beforeImage ≠ none → s.afterImage ≠ none → jsTrim s.verificationInstructions = "" →
      (handleSubmit post s).2 = [] ∧
      (handleSubmit post s).1.loading = s.loading ∧
      (handleSubmit post s).1.error = some "Please enter verification instructions") := by
  obtain ⟨b, a, instr, loading, result, error⟩ := s
  rcases b with _ | b
  · refine ⟨fun h => absurd rfl h, fun _ => ⟨rfl, rfl, rfl⟩, fun h => absurd rfl h⟩
  · rcases a with _ | a
    · refine ⟨fun h => absurd rfl h, fun _ => ⟨rfl, rfl, rfl⟩, fun _ h => absurd rfl h⟩
    · by_cases ht : jsTrim instr = ""
      · refine ⟨fun h => ?_, fun h => ?_, fun _ _ _ => ?_⟩
        · simp [handleSubmit, ht] at h
        · rcases h with h | h <;> cases h
        · simp [handleSubmit, ht]
      · refine ⟨fun _ => ⟨by simp, by simp, ht⟩, fun h => ?_, fun _ _ h => absurd h ht⟩
        rcases h with h | h <;> cases h

/-- Witness of C8: with the after image omitted nothing is sent and the images
message is shown; with blank instructions nothing is sent and the instructions
message is shown; the filled form sends one request. -/
theorem handleSubmit_validation_witness :
    ((handleSubmit scenarioTransport formWithoutAfter).2 = [] ∧
      (handleSubmit scenarioTransport formWithoutAfter).1.loading = false ∧
      (handleSubmit scenarioTransport formWithoutAfter).1.error =
        some "Please upload both before and after images") ∧
    ((handleSubmit scenarioTransport formWithBlankInstructions).2 = [] ∧
      (handleSubmit scenarioTransport formWithBlankInstructions).1.loading = false ∧
      (handleSubmit scenarioTransport formWithBlankInstructions).1.error =
        some "Please enter verification instructions") ∧
    (handleSubmit scenarioTransport filledForm).2.length = 1 :=
  ⟨(handleSubmit_validation scenarioTransport formWithoutAfter).2.1 (Or.inr rfl),
   (handleSubmit_validation scenarioTransport formWithBlankInstructions).2.2
     (by decide) (by decide) (by decide),
   by decide⟩

/-! ## Client: rendering of the analysis -/

/-- Splitting always gives at least one piece. -/
theorem splitNewlineChars_ne_nil (cs : List Char) : splitNewlineChars cs ≠ [] := by
  cases cs with
  | nil => simp [splitNewlineChars]
  | cons c cs =>
    unfold splitNewlineChars
    split
    · simp
    · split <;> simp

/-- There is one piece more than there are newlines. -/
theorem splitNewlineChars_length (cs : List Char) :
    (splitNewlineChars cs).length = cs.count '\n' + 1 := by
  induction cs with
  | nil => rfl
  | cons c cs ih =>
    unfold splitNewlineChars
    split
    · rename_i h
      rw [h, List.length_cons, ih, List.count_cons_self]
    · rename_i h
      rw [List.count_cons_of_ne (fun hh => h hh.symm)]
      split
      · rename_i h0
        exact absurd h0 (splitNewlineChars_ne_nil cs)
      · rename_i p ps h0
        rw [h0] at ih
        exact ih

/-- No piece holds a newline. -/
theorem splitNewlineChars_no_newline (cs : List Char) :
    ∀ p ∈ splitNewlineChars cs, '\n' ∉ p := by
  induction cs with
  | nil =>
    intro p hp
    simp only [splitNewlineChars, List.mem_singleton] at hp
    rw [hp]
    exact List.not_mem_nil _
  | cons c cs ih =>
    intro p hp
    unfold splitNewlineChars at hp
    split at hp
    · rcases List.mem_cons.mp hp with h1 | h1
      · rw [h1]; exact List.not_mem_nil _
      · exact ih p h1
    · rename_i h
      split at hp
      · rename_i h0
        exact absurd h0 (splitNewlineChars_ne_nil cs)
      · rename_i q qs h0
        rw [h0] at ih
        rcases List.mem_cons.mp hp with h1 | h1
        · rw [h1]
          intro hm
          rcases List.mem_cons.mp hm with h2 | h2
          · exact h h2.symm
          · exact ih q (List.mem_cons_self _ _) h2
        · exact ih p (List.mem_cons_of_mem _ h1)

/-- The first piece followed by the newline-led other pieces is the text. -/
theorem splitNewlineChars_join (cs : List Char) :
    ∀ p ps, splitNewlineChars cs = p :: ps → p ++ joinTail ps = cs := by
  induction cs with
  | nil =>
    intro p ps h
    simp only [splitNewlineChars, List.cons.injEq] at h
    rw [← h.1, ← h.2]
    rfl
  | cons c cs ih =>
    intro p ps h
    unfold splitNewlineChars at h
    split at h
    · rename_i hc
      obtain ⟨h1, h2⟩ := List.cons.inj h
      rw [← h1, ← h2, hc]
      cases h0 : splitNewlineChars cs with
      | nil => exact absurd h0 (splitNewlineChars_ne_nil cs)
      | cons q qs =>
        have := ih q qs h0
        simp only [List.nil_append, joinTail]
        rw [this]
    · split at h
      · rename_i h0
        exact absurd h0 (splitNewlineChars_ne_nil cs)
      · rename_i q qs h0
        obtain ⟨h1, h2⟩ := List.cons.inj h
        rw [← h1, ← h2, List.cons_append, ih q qs h0]

/-- The characters accumulated by joining pieces with newlines. -/
theorem intercalate_go_data (ps : List (List Char)) : ∀ acc : String,
    (String.intercalate.go acc "\n" (ps.map String.mk)).data = acc.data ++ joinTail ps := by
  induction ps with
  | nil => intro acc; simp [String.intercalate.go, joinTail]
  | cons p ps ih =>
    intro acc
    rw [List.map_cons, String.intercalate.go, ih]
    simp [String.data_append, joinTail]

/-- Joining the pieces of a text with newlines gives the text back. -/
theorem jsSplitNewline_join (text : String) :
    String.intercalate "\n" (jsSplitNewline text) = text := by
  unfold jsSplitNewline
  cases h0 : splitNewlineChars text.data with
  | nil => exact absurd h0 (splitNewlineChars_ne_nil _)
  | cons p ps =>
    apply String.ext
    rw [List.map_cons, String.intercalate, intercalate_go_data]
    exact splitNewlineChars_join text.data p ps h0

/-- C9 as stated fails: when the analysis text returned to the client is empty, the
component keeps showing the form and renders no paragraph, where the claim counts one
paragraph (one more than the number of newlines, zero). -/
theorem render_empty_analysis_shows_form :
    (handleSubmit emptyAnalysisTransport filledForm).1.result = some "" ∧
    render (handleSubmit emptyAnalysisTransport filledForm).1 = View.form ∧
    (render (handleSubmit emptyAnalysisTransport filledForm).1).paragraphs.length ≠
      ("" : String).data.count '\n' + 1 := by
  decide

/-- C9, amended: for every non-empty analysis text held in `result`, the rendered
paragraphs are the pieces of the text split at newlines, in order: there is one
paragraph more than there are newlines in the text, no paragraph holds a newline, and
joining the paragraphs with newlines gives the text back. -/
theorem render_paragraphs (s : FormState) (text : String) (hr : s.result = some text)
    (hne : text ≠ "") :
    render s = View.analysis (jsSplitNewline text) ∧
    (render s).paragraphs.length = text.data.count '\n' + 1 ∧
    (∀ p ∈ (render s).paragraphs, '\n' ∉ p.data) ∧
    String.intercalate "\n" (render s).paragraphs = text := by
  have hrender : render s = View.analysis (jsSplitNewline text) := by
    unfold render
    rw [hr]
    simp only [hne, if_false]
  rw [hrender]
  refine ⟨rfl, ?_, ?_, jsSplitNewline_join text⟩
  · simp only [View.paragraphs, jsSplitNewline, List.length_map]
    exact splitNewlineChars_length text.data
  · intro p hp
    simp only [View.paragraphs, jsSplitNewline, List.mem_map] at hp
    obtain ⟨q, hq, hpq⟩ := hp
    rw [← hpq]
    exact splitNewlineChars_no_newline text.data q hq

/-- Witness of the amended C9: the two-line analysis of the scenario is rendered as
two paragraphs matching its two lines. -/
theorem render_paragraphs_witness :
    (handleSubmit scenarioTransport filledForm).1.result = some wallAnalysis ∧
    jsSplitNewline wallAnalysis =
      ["- Wall color changed from white to blue.", "- Work appears complete."] ∧
    render (handleSubmit scenarioTransport filledForm).1 =
      View.analysis (jsSplitNewline wallAnalysis) ∧
    (render (handleSubmit scenarioTransport filledForm).1).paragraphs.length =
      wallAnalysis.data.count '\n' + 1 :=
  ⟨by decide, by decide,
   (render_paragraphs (handleSubmit scenarioTransport filledForm).1 wallAnalysis
      (by decide) (by decide)).1,
   (render_paragraphs (handleSubmit scenarioTransport filledForm).1 wallAnalysis
      (by decide) (by decide)).2.1⟩

end ImageVerif
